import Mathlib

/-!
Verification of the django-msgspec-field type-container model, migration
serializers and schema adapter, shallowly embedded from
src/django_msgspec_field/compat/django.py and src/django_msgspec_field/types.py.
-/

set_option maxHeartbeats 1000000

/-- Model of the Python runtime values handled by the container model:
plain classes and opaque objects (atom), the value None, string and int
literal values, plain lists and dicts, subscripted generic aliases
origin[args], bitwise unions a | b | ... (types.UnionType instances),
annotated aliases Annotated[base, m1, ...], msgspec.Meta constraint holders,
typing.ForwardRef values, dataclass instances, and the two migration
container classes GenericContainer(origin, args) and
DataclassContainer(datacls, kwargs). -/
inductive PyVal : Type where
  | atom (name : String)
  | pyNone
  | pyStr (s : String)
  | pyInt (n : Int)
  | pyList (elems : List PyVal)
  | pyDict (entries : List (String × PyVal))
  | generic (origin : PyVal) (args : List PyVal)
  | bitUnion (args : List PyVal)
  | annotated (base : PyVal) (metas : List PyVal)
  | meta (fields : List (String × PyVal))
  | forwardRef (name : String)
  | dcInst (cls : String) (fields : List (String × PyVal))
  | container (origin : PyVal) (args : List PyVal)
  | dcContainer (cls : String) (kwargs : List (String × PyVal))

mutual

/-- Decidable structural equality on the value model. -/
def pyValDecEq : (a b : PyVal) → Decidable (a = b) := fun a b => by
  cases a <;> cases b <;> try exact isFalse (fun h => PyVal.noConfusion h)
  case atom.atom n1 n2 =>
    exact match String.decEq n1 n2 with
    | isTrue h => isTrue (by rw [h])
    | isFalse h => isFalse (by intro hh; injection hh; contradiction)
  case pyNone.pyNone => exact isTrue rfl
  case pyStr.pyStr s1 s2 =>
    exact match String.decEq s1 s2 with
    | isTrue h => isTrue (by rw [h])
    | isFalse h => isFalse (by intro hh; injection hh; contradiction)
  case pyInt.pyInt n1 n2 =>
    exact match Int.decEq n1 n2 with
    | isTrue h => isTrue (by rw [h])
    | isFalse h => isFalse (by intro hh; injection hh; contradiction)
  case pyList.pyList xs ys =>
    exact match pyValListDecEq xs ys with
    | isTrue h => isTrue (by rw [h])
    | isFalse h => isFalse (by intro hh; injection hh; contradiction)
  case pyDict.pyDict xs ys =>
    exact match pyValFieldsDecEq xs ys with
    | isTrue h => isTrue (by rw [h])
    | isFalse h => isFalse (by intro hh; injection hh; contradiction)
  case generic.generic o1 a1 o2 a2 =>
    exact match pyValDecEq o1 o2, pyValListDecEq a1 a2 with
    | isTrue h1, isTrue h2 => isTrue (by rw [h1, h2])
    | isFalse h1, _ => isFalse (by intro hh; injection hh; contradiction)
    | _, isFalse h2 => isFalse (by intro hh; injection hh; contradiction)
  case bitUnion.bitUnion a1 a2 =>
    exact match pyValListDecEq a1 a2 with
    | isTrue h => isTrue (by rw [h])
    | isFalse h => isFalse (by intro hh; injection hh; contradiction)
  case annotated.annotated b1 m1 b2 m2 =>
    exact match pyValDecEq b1 b2, pyValListDecEq m1 m2 with
    | isTrue h1, isTrue h2 => isTrue (by rw [h1, h2])
    | isFalse h1, _ => isFalse (by intro hh; injection hh; contradiction)
    | _, isFalse h2 => isFalse (by intro hh; injection hh; contradiction)
  case meta.meta f1 f2 =>
    exact match pyValFieldsDecEq f1 f2 with
    | isTrue h => isTrue (by rw [h])
    | isFalse h => isFalse (by intro hh; injection hh; contradiction)
  case forwardRef.forwardRef n1 n2 =>
    exact match String.decEq n1 n2 with
    | isTrue h => isTrue (by rw [h])
    | isFalse h => isFalse (by intro hh; injection hh; contradiction)
  case dcInst.dcInst c1 f1 c2 f2 =>
    exact match String.decEq c1 c2, pyValFieldsDecEq f1 f2 with
    | isTrue h1, isTrue h2 => isTrue (by rw [h1, h2])
    | isFalse h1, _ => isFalse (by intro hh; injection hh; contradiction)
    | _, isFalse h2 => isFalse (by intro hh; injection hh; contradiction)
  case container.container o1 a1 o2 a2 =>
    exact match pyValDecEq o1 o2, pyValListDecEq a1 a2 with
    | isTrue h1, isTrue h2 => isTrue (by rw [h1, h2])
    | isFalse h1, _ => isFalse (by intro hh; injection hh; contradiction)
    | _, isFalse h2 => isFalse (by intro hh; injection hh; contradiction)
  case dcContainer.dcContainer c1 k1 c2 k2 =>
    exact match String.decEq c1 c2, pyValFieldsDecEq k1 k2 with
    | isTrue h1, isTrue h2 => isTrue (by rw [h1, h2])
    | isFalse h1, _ => isFalse (by intro hh; injection hh; contradiction)
    | _, isFalse h2 => isFalse (by intro hh; injection hh; contradiction)

/-- Decidable equality on lists of values. -/
def pyValListDecEq : (a b : List PyVal) → Decidable (a = b)
  | [], [] => isTrue rfl
  | [], _ :: _ => isFalse (fun h => List.noConfusion h)
  | _ :: _, [] => isFalse (fun h => List.noConfusion h)
  | x :: xs, y :: ys =>
    match pyValDecEq x y, pyValListDecEq xs ys with
    | isTrue h1, isTrue h2 => isTrue (by rw [h1, h2])
    | isFalse h1, _ => isFalse (by intro hh; injection hh; contradiction)
    | _, isFalse h2 => isFalse (by intro hh; injection hh; contradiction)

/-- Decidable equality on name-value mappings. -/
def pyValFieldsDecEq : (a b : List (String × PyVal)) → Decidable (a = b)
  | [], [] => isTrue rfl
  | [], _ :: _ => isFalse (fun h => List.noConfusion h)
  | _ :: _, [] => isFalse (fun h => List.noConfusion h)
  | (k1, v1) :: xs, (k2, v2) :: ys =>
    match String.decEq k1 k2, pyValDecEq v1 v2, pyValFieldsDecEq xs ys with
    | isTrue h1, isTrue h2, isTrue h3 => isTrue (by rw [h1, h2, h3])
    | isFalse h1, _, _ =>
      isFalse (by intro hh; injection hh with hl hr; injection hl; contradiction)
    | _, isFalse h2, _ =>
      isFalse (by intro hh; injection hh with hl hr; injection hl; contradiction)
    | _, _, isFalse h3 => isFalse (by intro hh; injection hh; contradiction)

end

instance : DecidableEq PyVal := pyValDecEq

/-- List of class names that support plain parameter subscription
(origin[args]) in the modelled universe, mirroring the builtin and
collections generics exercised by the repository. -/
def subscriptableNames : List String :=
  ["list", "dict", "set", "tuple", "frozenset", "type",
   "collections.abc.Sequence", "collections.abc.Mapping",
   "collections.abc.Iterable"]

/-- First-occurrence deduplication helper used to model the argument
normalization CPython performs when building union and literal aliases. -/
def pdedupAux (seen : List PyVal) : List PyVal → List PyVal
  | [] => []
  | x :: xs => if seen.contains x then pdedupAux seen xs else x :: pdedupAux (x :: seen) xs

/-- First-occurrence deduplication of a list of values. -/
def pdedup (l : List PyVal) : List PyVal := pdedupAux [] l

/-- Whether a value is a union alias of either spelling (typing.Union
subscripted alias or a types.UnionType instance). -/
def isUnionKind : PyVal → Bool
  | .generic (.atom "typing.Union") _ => true
  | .bitUnion _ => true
  | _ => false

/-- Members a value contributes to a typing.Union alias: a union alias of
either spelling contributes its members, anything else contributes itself. -/
def unionMembers : PyVal → List PyVal
  | .generic (.atom "typing.Union") inner => inner
  | .bitUnion inner => inner
  | x => [x]

/-- CPython flattens union arguments one level when building a typing.Union
alias: nested union aliases of either spelling contribute their members. -/
def unionFlatten (args : List PyVal) : List PyVal :=
  args.flatMap unionMembers

/-- Collapse of a normalized one-member union to the member itself,
as CPython does for both union spellings. -/
def collapseSingleton (l : List PyVal) (fallback : PyVal) : PyVal :=
  match l with
  | [x] => x
  | _ => fallback

/-- Subscription typing.Union[args]: flatten nested unions, deduplicate,
and collapse a singleton union to its only member. -/
def unionSubscript (args : List PyVal) : PyVal :=
  let l := pdedup (unionFlatten args)
  collapseSingleton l (.generic (.atom "typing.Union") l)

/-- Members a value contributes to a typing.Literal alias. -/
def literalMembers : PyVal → List PyVal
  | .generic (.atom "typing.Literal") inner => inner
  | x => [x]

/-- CPython flattens literal arguments one level when building a
typing.Literal alias. -/
def literalFlatten (args : List PyVal) : List PyVal :=
  args.flatMap literalMembers

/-- Subscription typing.Literal[args]: flatten nested literals and
deduplicate (no singleton collapse). -/
def literalSubscript (args : List PyVal) : PyVal :=
  .generic (.atom "typing.Literal") (pdedup (literalFlatten args))

/-- Parameter subscription origin[args] as used by
GenericContainer.unwrap. Returns none when the origin does not support
subscription, modelling the TypeError branch of the source. Annotated
requires at least two parameters; typing.Union and typing.Literal
normalize their arguments; plain generic classes build a subscripted
alias directly. -/
def subscript (origin : PyVal) (args : List PyVal) : Option PyVal :=
  match origin with
  | .atom n =>
    if n = "typing.Annotated" then
      match args with
      | base :: m :: ms => some (.annotated base (m :: ms))
      | _ => none
    else if n = "typing.Union" then some (unionSubscript args)
    else if n = "typing.Literal" then some (literalSubscript args)
    else if subscriptableNames.contains n then some (.generic (.atom n) args)
    else none
  | _ => none

/-- Members a value contributes to a bitwise union: a types.UnionType
instance contributes its members, anything else contributes itself. -/
def pyOrFlat : PyVal → List PyVal
  | .bitUnion l => l
  | x => [x]

/-- The type-level operator a | b: builds a types.UnionType instance,
flattening bitwise-union operands, deduplicating, and collapsing a
singleton result to its only member (int | int is int). -/
def pyOr (a b : PyVal) : PyVal :=
  let l := pdedup (pyOrFlat a ++ pyOrFlat b)
  collapseSingleton l (.bitUnion l)

/-- Membership of the GenericTypes tuple of compat/django.py: subscripted
generic aliases (types.GenericAlias and typing._GenericAlias subclasses,
which include Literal and Annotated aliases) and types.UnionType
instances. -/
def isGenericTypes : PyVal → Bool
  | .generic _ _ => true
  | .bitUnion _ => true
  | .annotated _ _ => true
  | _ => false

/-- Modelled from the spec: compat.typing.get_origin (the module
compat/typing.py is not under src/; only its import site is). Standard
generic-type introspection: the unsubscripted origin of a subscripted
alias, and the types.UnionType marker class for bitwise unions. -/
def getOrigin : PyVal → PyVal
  | .generic origin _ => origin
  | .bitUnion _ => .atom "types.UnionType"
  | v => v

/-- Modelled from the spec: compat.typing.get_args (the module
compat/typing.py is not under src/). Standard generic-type introspection:
the parameter tuple of a subscripted alias or union. -/
def getArgs : PyVal → List PyVal
  | .generic _ args => args
  | .bitUnion args => args
  | _ => []

mutual

/-- GenericContainer.wrap: an Annotated alias becomes a container with the
Annotated marker as origin and (base, *metadata) recursively wrapped as
args; any other GenericTypes instance becomes a container of its origin
and recursively wrapped args; everything else is returned unchanged. -/
def GenericContainer.wrap : PyVal → PyVal
  | .annotated base metas =>
    .container (.atom "typing.Annotated") (GenericContainer.wrap base :: GenericContainer.wrapList metas)
  | .generic origin args => .container origin (GenericContainer.wrapList args)
  | .bitUnion args => .container (.atom "types.UnionType") (GenericContainer.wrapList args)
  | v => v

/-- Pointwise GenericContainer.wrap over an argument tuple. -/
def GenericContainer.wrapList : List PyVal → List PyVal
  | [] => []
  | x :: xs => GenericContainer.wrap x :: GenericContainer.wrapList xs

end

mutual

/-- BaseContainer.unwrap: dynamic dispatch on the container subclass.
A GenericContainer with no args unwraps to its origin; with args it
recursively unwraps the args, then folds them with the | operator when the
origin is the types.UnionType marker, otherwise subscripts the origin,
falling back to a plain types.GenericAlias when subscription raises
TypeError. A DataclassContainer reconstructs datacls(**kwargs)
(DataclassContainer.unwrap, inlined here). Any other value is unchanged. -/
def BaseContainer.unwrap : PyVal → PyVal
  | .container origin [] => origin
  | .container origin (a :: rest) =>
    let u0 := BaseContainer.unwrap a
    let urest := BaseContainer.unwrapList rest
    if origin = .atom "types.UnionType" then
      urest.foldl pyOr u0
    else
      match subscript origin (u0 :: urest) with
      | some r => r
      | none => .generic origin (u0 :: urest)
  | .dcContainer cls kwargs => .dcInst cls kwargs
  | v => v

/-- Pointwise BaseContainer.unwrap over an argument tuple. -/
def BaseContainer.unwrapList : List PyVal → List PyVal
  | [] => []
  | x :: xs => BaseContainer.unwrap x :: BaseContainer.unwrapList xs

end

/-- GenericContainer.unwrap: acts on GenericContainer instances via the
shared recursive body, and returns any non-container value unchanged. -/
def GenericContainer.unwrap (v : PyVal) : PyVal :=
  match v with
  | .container _ _ => BaseContainer.unwrap v
  | v => v

mutual

/-- Recursive value conversion performed by dataclasses.asdict: dataclass
instances become dicts of their recursively converted fields, and dicts
and lists are converted elementwise; other values are (deep-)copied,
which is modelled as identity on the immutable values of the universe. -/
def asdictVal : PyVal → PyVal
  | .dcInst _ fields => .pyDict (asdictFields fields)
  | .pyDict entries => .pyDict (asdictFields entries)
  | .pyList elems => .pyList (asdictList elems)
  | v => v

/-- dataclasses.asdict conversion of a name-value mapping. -/
def asdictFields : List (String × PyVal) → List (String × PyVal)
  | [] => []
  | (k, v) :: rest => (k, asdictVal v) :: asdictFields rest

/-- dataclasses.asdict conversion of a list of values. -/
def asdictList : List PyVal → List PyVal
  | [] => []
  | x :: xs => asdictVal x :: asdictList xs

end

/-- DataclassContainer.wrap: a dataclass instance (not a type) becomes a
DataclassContainer of its class and dataclasses.asdict(value); a
GenericTypes instance is delegated to GenericContainer.wrap; anything
else is unchanged. -/
def DataclassContainer.wrap : PyVal → PyVal
  | .dcInst cls fields => .dcContainer cls (asdictFields fields)
  | v => if isGenericTypes v then GenericContainer.wrap v else v

/-- DataclassContainer.unwrap: reconstructs datacls(**kwargs); any other
value is unchanged. -/
def DataclassContainer.unwrap : PyVal → PyVal
  | .dcContainer cls kwargs => .dcInst cls kwargs
  | v => v

/-- Assoc lookup in a name-value mapping (first match). -/
def alookup (k : String) : List (String × PyVal) → Option PyVal
  | [] => none
  | (k1, v) :: rest => if k1 = k then some v else alookup k rest

/-- The fixed tuple of msgspec.Meta constraint fields inspected by
MsgspecMetaSerializer, in source order. -/
def canonicalMetaFields : List String :=
  ["gt", "ge", "lt", "le", "multiple_of", "pattern", "min_length",
   "max_length", "tz", "title", "description", "examples", "extra_json_schema"]

/-- The keyword arguments MsgspecMetaSerializer emits for a Meta value:
each canonical field is read with getattr(meta, field, None) and kept only
when it is not None. -/
def metaKwargs (fields : List (String × PyVal)) : List (String × PyVal) :=
  canonicalMetaFields.filterMap fun n =>
    match alookup n fields with
    | some v => if v = .pyNone then none else some (n, v)
    | none => none

/-- Constraint values that occur in msgspec.Meta instances of the
modelled universe (numbers, strings, opaque objects). -/
def metaValOk : PyVal → Bool
  | .pyStr _ => true
  | .pyInt _ => true
  | .atom _ => true
  | _ => false

/-- Well-formedness of a modelled msgspec.Meta instance: its field table
lists exactly the non-None constraint fields in canonical order. -/
def metaWf (fields : List (String × PyVal)) : Bool :=
  decide (metaKwargs fields = fields) && fields.all fun kv => metaValOk kv.2

/-- Argument values admissible inside a typing.Literal alias
(strings, ints, booleans, None, enum members). -/
def isLitValue : PyVal → Bool
  | .pyStr _ => true
  | .pyInt _ => true
  | .pyNone => true
  | .atom _ => true
  | _ => false

/-- Boolean no-duplicates check on a list of values. -/
def nodupB : List PyVal → Bool
  | [] => true
  | x :: xs => !xs.contains x && nodupB xs

mutual

/-- The supported generic-type universe of the specification: plain
classes, literal values, forward references, Meta constraint holders,
subscripted generics over subscriptable origins, literal aliases,
unions in both spellings (normalized: at least two distinct members,
none itself a union), and annotated-metadata aliases (non-empty
metadata, base not itself annotated). Containers, dataclass instances
and plain data structures are not type expressions. -/
def supportedType : PyVal → Bool
  | .atom _ => true
  | .pyNone => true
  | .pyStr _ => true
  | .pyInt _ => true
  | .forwardRef _ => true
  | .meta fields => metaWf fields
  | .generic (.atom n) args =>
    if n = "typing.Union" then
      decide (2 ≤ args.length) && supportedList args &&
        args.all (fun a => !isUnionKind a) && nodupB args
    else if n = "typing.Literal" then
      !args.isEmpty && args.all isLitValue && nodupB args
    else
      !args.isEmpty && supportedList args && subscriptableNames.contains n
  | .generic _ _ => false
  | .bitUnion args =>
    decide (2 ≤ args.length) && supportedList args &&
      args.all (fun a => !isUnionKind a) && nodupB args
  | .annotated base metas =>
    !metas.isEmpty && supportedType base &&
      !(match base with | .annotated _ _ => true | _ => false) && supportedList metas
  | _ => false

/-- Pointwise supportedType over an argument tuple. -/
def supportedList : List PyVal → Bool
  | [] => true
  | x :: xs => supportedType x && supportedList xs

end

lemma wrapList_eq_map (l : List PyVal) :
    GenericContainer.wrapList l = l.map GenericContainer.wrap := by
  induction l with
  | nil => simp [GenericContainer.wrapList]
  | cons x xs ih => simp [GenericContainer.wrapList, ih]

lemma unwrapList_eq_map (l : List PyVal) :
    BaseContainer.unwrapList l = l.map BaseContainer.unwrap := by
  induction l with
  | nil => simp [BaseContainer.unwrapList]
  | cons x xs ih => simp [BaseContainer.unwrapList, ih]

lemma supportedList_iff {l : List PyVal} :
    supportedList l = true ↔ ∀ a ∈ l, supportedType a = true := by
  induction l with
  | nil => simp [supportedList]
  | cons x xs ih => simp [supportedList, Bool.and_eq_true, ih, List.forall_mem_cons]

lemma nodupB_iff {l : List PyVal} : nodupB l = true ↔ l.Nodup := by
  induction l with
  | nil => simp [nodupB]
  | cons x xs ih =>
    simp [nodupB, Bool.and_eq_true, ih, List.nodup_cons]

lemma pdedupAux_eq_self (l : List PyVal) : ∀ (seen : List PyVal),
    (∀ x ∈ l, x ∉ seen) → l.Nodup → pdedupAux seen l = l := by
  induction l with
  | nil => intro seen _ _; rfl
  | cons x xs ih =>
    intro seen hdisj hnd
    have hx : seen.contains x = false := by
      have hxs := hdisj x (by simp)
      simpa using hxs
    rw [pdedupAux, hx]
    simp only [Bool.false_eq_true, if_false]
    have hrec : pdedupAux (x :: seen) xs = xs := by
      apply ih
      · intro y hy
        simp only [List.mem_cons]
        push_neg
        constructor
        · intro hyx
          subst hyx
          exact (List.nodup_cons.mp hnd).1 hy
        · exact hdisj y (by simp [hy])
      · exact (List.nodup_cons.mp hnd).2
    rw [hrec]

lemma pdedup_eq_self {l : List PyVal} (hl : l.Nodup) : pdedup l = l :=
  pdedupAux_eq_self l [] (by simp) hl

lemma unionMembers_eq_self {a : PyVal} (h : isUnionKind a = false) :
    unionMembers a = [a] := by
  unfold unionMembers
  split
  · simp [isUnionKind] at h
  · simp [isUnionKind] at h
  · rfl

lemma unionFlatten_eq_self {l : List PyVal}
    (h : ∀ a ∈ l, isUnionKind a = false) : unionFlatten l = l := by
  induction l with
  | nil => rfl
  | cons x xs ih =>
    have hx := unionMembers_eq_self (h x (by simp))
    have hxs := ih fun a ha => h a (by simp [ha])
    simp only [unionFlatten, List.flatMap_cons] at *
    rw [hx, hxs]
    rfl

lemma literalMembers_eq_self {a : PyVal} (h : isLitValue a = true) :
    literalMembers a = [a] := by
  cases a <;> simp_all [isLitValue, literalMembers]

lemma literalFlatten_eq_self {l : List PyVal}
    (h : ∀ a ∈ l, isLitValue a = true) : literalFlatten l = l := by
  induction l with
  | nil => rfl
  | cons x xs ih =>
    have hx := literalMembers_eq_self (h x (by simp))
    have hxs := ih fun a ha => h a (by simp [ha])
    simp only [literalFlatten, List.flatMap_cons] at *
    rw [hx, hxs]
    rfl

lemma collapseSingleton_of_long {l : List PyVal} {f : PyVal}
    (h : 2 ≤ l.length) : collapseSingleton l f = f := by
  match l, h with
  | a :: b :: rest, _ => rfl

lemma unionSubscript_eq {args : List PyVal} (hlen : 2 ≤ args.length)
    (hnu : ∀ a ∈ args, isUnionKind a = false) (hnd : args.Nodup) :
    unionSubscript args = .generic (.atom "typing.Union") args := by
  unfold unionSubscript
  rw [unionFlatten_eq_self hnu, pdedup_eq_self hnd, collapseSingleton_of_long hlen]

lemma literalSubscript_eq {args : List PyVal}
    (hlit : ∀ a ∈ args, isLitValue a = true) (hnd : args.Nodup) :
    literalSubscript args = .generic (.atom "typing.Literal") args := by
  unfold literalSubscript
  rw [literalFlatten_eq_self hlit, pdedup_eq_self hnd]

lemma pyOrFlat_eq_self {a : PyVal} (h : isUnionKind a = false) :
    pyOrFlat a = [a] := by
  cases a <;> simp_all [isUnionKind, pyOrFlat]

lemma pyOr_acc_step {acc : List PyVal} {r : PyVal} (hacc : 2 ≤ acc.length)
    (hr : isUnionKind r = false) (hnd : (acc ++ [r]).Nodup) :
    pyOr (.bitUnion acc) r = .bitUnion (acc ++ [r]) := by
  unfold pyOr
  have h1 : pyOrFlat (.bitUnion acc) = acc := rfl
  rw [h1, pyOrFlat_eq_self hr, pdedup_eq_self hnd,
    collapseSingleton_of_long (by simp; omega)]

lemma foldl_pyOr_acc (rest : List PyVal) : ∀ (acc : List PyVal),
    2 ≤ acc.length → (∀ x ∈ rest, isUnionKind x = false) →
    (acc ++ rest).Nodup →
    rest.foldl pyOr (.bitUnion acc) = .bitUnion (acc ++ rest) := by
  induction rest with
  | nil => intro acc _ _ _; simp
  | cons r rest ih =>
    intro acc hacc hru hnd
    have hsub : (acc ++ [r]).Sublist (acc ++ r :: rest) := by
      apply List.Sublist.append_left
      exact (List.nil_sublist rest).cons₂ r
    have hnd1 : (acc ++ [r]).Nodup := hnd.sublist hsub
    rw [List.foldl_cons, pyOr_acc_step hacc (hru r (by simp)) hnd1]
    have := ih (acc ++ [r]) (by simp; omega)
      (fun x hx => hru x (by simp [hx]))
      (by simpa [List.append_assoc] using hnd)
    simpa [List.append_assoc] using this

/-- Whether a value is one of the two migration container classes. -/
def isContainerKind : PyVal → Bool
  | .container _ _ => true
  | .dcContainer _ _ => true
  | _ => false

lemma wrap_eq_self_of_not_generic {v : PyVal} (h : isGenericTypes v = false) :
    GenericContainer.wrap v = v := by
  cases v <;> simp_all [isGenericTypes, GenericContainer.wrap]

lemma unwrap_eq_self_of_not_container {v : PyVal} (h : isContainerKind v = false) :
    BaseContainer.unwrap v = v := by
  cases v <;> simp_all [isContainerKind, BaseContainer.unwrap]

lemma lit_wrap_eq_self {a : PyVal} (h : isLitValue a = true) :
    GenericContainer.wrap a = a := by
  cases a <;> simp_all [isLitValue, GenericContainer.wrap]

lemma lit_unwrap_eq_self {a : PyVal} (h : isLitValue a = true) :
    BaseContainer.unwrap a = a := by
  cases a <;> simp_all [isLitValue, BaseContainer.unwrap]

lemma roundtrip_list {args : List PyVal}
    (hIH : ∀ a ∈ args, BaseContainer.unwrap (GenericContainer.wrap a) = a) :
    BaseContainer.unwrapList (GenericContainer.wrapList args) = args := by
  induction args with
  | nil => simp [GenericContainer.wrapList, BaseContainer.unwrapList]
  | cons x xs ih =>
    simp only [GenericContainer.wrapList, BaseContainer.unwrapList]
    rw [hIH x (by simp), ih fun a ha => hIH a (by simp [ha])]

lemma pyOr_plain {a b : PyVal} (ha : isUnionKind a = false)
    (hb : isUnionKind b = false) (hne : a ≠ b) : pyOr a b = .bitUnion [a, b] := by
  unfold pyOr
  rw [pyOrFlat_eq_self ha, pyOrFlat_eq_self hb]
  have hd : pdedup ([a] ++ [b]) = [a, b] := pdedup_eq_self (by simp [hne])
  rw [hd]
  rfl

lemma map_eq_self_of_forall {f : PyVal → PyVal} :
    ∀ {l : List PyVal}, (∀ a ∈ l, f a = a) → l.map f = l := by
  intro l
  induction l with
  | nil => intro _; rfl
  | cons x xs ih =>
    intro h
    simp only [List.map_cons]
    rw [h x (by simp), ih fun a ha => h a (by simp [ha])]

lemma unwrap_container_cons_union (a : PyVal) (rest : List PyVal) :
    BaseContainer.unwrap (.container (.atom "types.UnionType") (a :: rest)) =
      (BaseContainer.unwrapList rest).foldl pyOr (BaseContainer.unwrap a) := by
  simp [BaseContainer.unwrap]

lemma unwrap_container_cons_not_union {origin : PyVal}
    (h : origin ≠ .atom "types.UnionType") (a : PyVal) (rest : List PyVal) :
    BaseContainer.unwrap (.container origin (a :: rest)) =
      (match subscript origin (BaseContainer.unwrap a :: BaseContainer.unwrapList rest) with
       | some r => r
       | none => .generic origin (BaseContainer.unwrap a :: BaseContainer.unwrapList rest)) := by
  simp only [BaseContainer.unwrap]
  rw [if_neg h]

theorem unwrap_wrap_sized : ∀ (n : Nat) (T : PyVal), sizeOf T ≤ n →
    supportedType T = true → BaseContainer.unwrap (GenericContainer.wrap T) = T := by
  intro n
  induction n with
  | zero =>
    intro T hsize _
    exact absurd hsize (by cases T <;> simp_arith)
  | succ n ih =>
    intro T hsize hsupp
    cases T with
    | atom name => simp [GenericContainer.wrap, BaseContainer.unwrap]
    | pyNone => simp [GenericContainer.wrap, BaseContainer.unwrap]
    | pyStr s => simp [GenericContainer.wrap, BaseContainer.unwrap]
    | pyInt k => simp [GenericContainer.wrap, BaseContainer.unwrap]
    | forwardRef name => simp [GenericContainer.wrap, BaseContainer.unwrap]
    | meta fields => simp [GenericContainer.wrap, BaseContainer.unwrap]
    | pyList elems => simp [supportedType] at hsupp
    | pyDict entries => simp [supportedType] at hsupp
    | dcInst cls fields => simp [supportedType] at hsupp
    | container origin args => simp [supportedType] at hsupp
    | dcContainer cls kwargs => simp [supportedType] at hsupp
    | bitUnion args =>
      have hargsize : ∀ a ∈ args, sizeOf a ≤ n := by
        intro a haa
        have h1 := List.sizeOf_lt_of_mem haa
        have h2 : sizeOf args < sizeOf (PyVal.bitUnion args) := by simp_arith
        omega
      simp only [supportedType, Bool.and_eq_true, decide_eq_true_eq,
        List.all_eq_true, Bool.not_eq_true'] at hsupp
      obtain ⟨⟨⟨hlen, hsl⟩, hnu⟩, hnd⟩ := hsupp
      have hIH : ∀ a ∈ args, BaseContainer.unwrap (GenericContainer.wrap a) = a :=
        fun a haa => ih a (hargsize a haa) (supportedList_iff.mp hsl a haa)
      match args, hlen, hnu, hnd, hIH with
      | a0 :: r1 :: rest2, _, hnu, hnd, hIH =>
        simp only [GenericContainer.wrap, GenericContainer.wrapList]
        rw [unwrap_container_cons_union]
        rw [hIH a0 (by simp)]
        have hrl : BaseContainer.unwrapList
            (GenericContainer.wrap r1 :: GenericContainer.wrapList rest2) =
            r1 :: rest2 := by
          have := @roundtrip_list (r1 :: rest2)
            (fun a haa => hIH a (by simp [List.mem_cons] at haa ⊢; tauto))
          simpa [GenericContainer.wrapList] using this
        rw [hrl]
        have hnd' : (a0 :: r1 :: rest2).Nodup := nodupB_iff.mp hnd
        rw [List.foldl_cons]
        rw [pyOr_plain (hnu a0 (by simp)) (hnu r1 (by simp))
          (by intro hh; rw [hh] at hnd'; simp [List.nodup_cons] at hnd')]
        have hfold := foldl_pyOr_acc rest2 [a0, r1] (by simp)
          (fun x hx => hnu x (by simp [hx]))
          (by simpa using hnd')
        simpa using hfold
    | annotated base metas =>
      have hbsize : sizeOf base ≤ n := by
        have : sizeOf base < sizeOf (PyVal.annotated base metas) := by simp_arith
        omega
      have hmsize : ∀ a ∈ metas, sizeOf a ≤ n := by
        intro a haa
        have h1 := List.sizeOf_lt_of_mem haa
        have h2 : sizeOf metas < sizeOf (PyVal.annotated base metas) := by simp_arith
        omega
      simp only [supportedType, Bool.and_eq_true, Bool.not_eq_true'] at hsupp
      obtain ⟨⟨⟨hne, hsb⟩, _⟩, hsm⟩ := hsupp
      have hIHb := ih base hbsize hsb
      have hIHm : ∀ a ∈ metas, BaseContainer.unwrap (GenericContainer.wrap a) = a :=
        fun a haa => ih a (hmsize a haa) (supportedList_iff.mp hsm a haa)
      match metas, hne, hIHm with
      | m0 :: ms, _, hIHm =>
        simp only [GenericContainer.wrap, GenericContainer.wrapList]
        rw [unwrap_container_cons_not_union (by decide)]
        rw [hIHb]
        have hrl : BaseContainer.unwrapList
            (GenericContainer.wrap m0 :: GenericContainer.wrapList ms) = m0 :: ms := by
          have := @roundtrip_list (m0 :: ms) hIHm
          simpa [GenericContainer.wrapList] using this
        rw [hrl]
        simp [subscript]
    | generic origin args =>
      have hargsize : ∀ a ∈ args, sizeOf a ≤ n := by
        intro a haa
        have h1 := List.sizeOf_lt_of_mem haa
        have h2 : sizeOf args < sizeOf (PyVal.generic origin args) := by simp_arith
        omega
      cases origin with
      | atom oname =>
        by_cases hU : oname = "typing.Union"
        · subst hU
          unfold supportedType at hsupp
          rw [if_pos rfl] at hsupp
          simp only [Bool.and_eq_true, decide_eq_true_eq, List.all_eq_true,
            Bool.not_eq_true'] at hsupp
          obtain ⟨⟨⟨hlen, hsl⟩, hnu⟩, hnd⟩ := hsupp
          have hIH : ∀ a ∈ args, BaseContainer.unwrap (GenericContainer.wrap a) = a :=
            fun a haa => ih a (hargsize a haa) (supportedList_iff.mp hsl a haa)
          match args, hlen, hnu, hnd, hIH with
          | a0 :: rest, hlen2, hnu, hnd, hIH =>
            simp only [GenericContainer.wrap, GenericContainer.wrapList]
            rw [unwrap_container_cons_not_union (by decide)]
            rw [hIH a0 (by simp)]
            have hrl : BaseContainer.unwrapList (GenericContainer.wrapList rest) = rest :=
              roundtrip_list fun a haa => hIH a (by simp [haa])
            rw [hrl]
            simp only [subscript, if_neg (show ("typing.Union" : String) ≠ "typing.Annotated" by decide), if_pos rfl]
            rw [unionSubscript_eq hlen2 hnu (nodupB_iff.mp hnd)]
            simp
        · by_cases hL : oname = "typing.Literal"
          · subst hL
            unfold supportedType at hsupp
            rw [if_neg (show ("typing.Literal" : String) ≠ "typing.Union" by decide),
              if_pos rfl] at hsupp
            simp only [Bool.and_eq_true, List.all_eq_true, Bool.not_eq_true'] at hsupp
            obtain ⟨⟨hne, hlit⟩, hnd⟩ := hsupp
            have hwl : GenericContainer.wrapList args = args := by
              rw [wrapList_eq_map]
              exact map_eq_self_of_forall fun a haa => lit_wrap_eq_self (hlit a haa)
            match args, hne, hlit, hnd with
            | a0 :: rest, _, hlit, hnd =>
              simp only [GenericContainer.wrap]
              rw [hwl]
              rw [unwrap_container_cons_not_union (by decide)]
              rw [lit_unwrap_eq_self (hlit a0 (by simp))]
              have hrl : BaseContainer.unwrapList rest = rest := by
                rw [unwrapList_eq_map]
                exact map_eq_self_of_forall fun a haa =>
                  lit_unwrap_eq_self (hlit a (by simp [haa]))
              rw [hrl]
              simp only [subscript,
                if_neg (show ("typing.Literal" : String) ≠ "typing.Annotated" by decide),
                if_neg (show ("typing.Literal" : String) ≠ "typing.Union" by decide), if_pos rfl]
              rw [literalSubscript_eq hlit (nodupB_iff.mp hnd)]
              simp
          · simp only [supportedType, if_neg hU, if_neg hL, Bool.and_eq_true,
              Bool.not_eq_true'] at hsupp
            obtain ⟨⟨hne, hsl⟩, hmem⟩ := hsupp
            have hmem' : oname ∈ subscriptableNames := by simpa using hmem
            have hA : oname ≠ "typing.Annotated" := by
              rintro rfl; simp [subscriptableNames] at hmem'
            have hUT : oname ≠ "types.UnionType" := by
              rintro rfl; simp [subscriptableNames] at hmem'
            have hIH : ∀ a ∈ args, BaseContainer.unwrap (GenericContainer.wrap a) = a :=
              fun a haa => ih a (hargsize a haa) (supportedList_iff.mp hsl a haa)
            match args, hne, hIH with
            | a0 :: rest, _, hIH =>
              simp only [GenericContainer.wrap, GenericContainer.wrapList]
              rw [unwrap_container_cons_not_union (by intro hh; injection hh with hs; exact hUT hs)]
              rw [hIH a0 (by simp)]
              have hrl : BaseContainer.unwrapList (GenericContainer.wrapList rest) = rest :=
                roundtrip_list fun a haa => hIH a (by simp [haa])
              rw [hrl]
              simp only [subscript, if_neg hA, if_neg hU, if_neg hL, if_pos hmem]
      | pyNone => simp [supportedType] at hsupp
      | pyStr s => simp [supportedType] at hsupp
      | pyInt k => simp [supportedType] at hsupp
      | pyList elems => simp [supportedType] at hsupp
      | pyDict entries => simp [supportedType] at hsupp
      | generic o2 a2 => simp [supportedType] at hsupp
      | bitUnion a2 => simp [supportedType] at hsupp
      | annotated b2 m2 => simp [supportedType] at hsupp
      | meta f2 => simp [supportedType] at hsupp
      | forwardRef n2 => simp [supportedType] at hsupp
      | dcInst c2 f2 => simp [supportedType] at hsupp
      | container o2 a2 => simp [supportedType] at hsupp
      | dcContainer c2 k2 => simp [supportedType] at hsupp

lemma gc_unwrap_eq_base {v : PyVal} (h : ∀ c k, v ≠ PyVal.dcContainer c k) :
    GenericContainer.unwrap v = BaseContainer.unwrap v := by
  cases v with
  | dcContainer c k => exact absurd rfl (h c k)
  | _ => simp [GenericContainer.unwrap, BaseContainer.unwrap]

/-- C1: for every supported generic-type shape T, unwrapping the result of
wrapping T yields T itself, with wrapping and unwrapping applied
recursively to nested arguments. -/
theorem wrap_unwrap_roundtrip (T : PyVal) (h : supportedType T = true) :
    GenericContainer.unwrap (GenericContainer.wrap T) = T := by
  have hnc : ∀ c k, GenericContainer.wrap T ≠ PyVal.dcContainer c k := by
    cases T <;> first
      | (simp [GenericContainer.wrap]; done)
      | (simp [supportedType] at h)
  rw [gc_unwrap_eq_base hnc]
  exact unwrap_wrap_sized (sizeOf T) T le_rfl h

/-- Sample supported shape: dict[Literal["foo", 1], Annotated[int | None, Meta(ge=0)]]. -/
def sampleSupportedShape : PyVal :=
  .generic (.atom "dict")
    [.generic (.atom "typing.Literal") [.pyStr "foo", .pyInt 1],
     .annotated (.bitUnion [.atom "int", .atom "NoneType"]) [.meta [("ge", .pyInt 0)]]]

theorem wrap_unwrap_roundtrip_witness :
    supportedType sampleSupportedShape = true ∧
    GenericContainer.unwrap (GenericContainer.wrap sampleSupportedShape) = sampleSupportedShape :=
  ⟨by decide, wrap_unwrap_roundtrip sampleSupportedShape (by decide)⟩

/-- Whether a value is a types.UnionType instance, that is, has the
bitwise-union runtime type (not a subscripted generic alias). -/
def isBitUnionType : PyVal → Bool
  | .bitUnion _ => true
  | _ => false

/-- C3: unwrapping a container whose origin is the types.UnionType marker
and whose args are non-empty folds the recursively unwrapped args with the
| operator left to right, and on (int, str, NoneType) yields int | str |
None with the bitwise-union runtime type. -/
theorem uniontype_unwrap_fold (args : List PyVal) (a0 : PyVal) (rest : List PyVal)
    (h : args = a0 :: rest) :
    GenericContainer.unwrap (.container (.atom "types.UnionType") args) =
      (BaseContainer.unwrapList rest).foldl pyOr (BaseContainer.unwrap a0) ∧
    GenericContainer.unwrap (.container (.atom "types.UnionType")
      [.atom "int", .atom "str", .atom "NoneType"]) =
      pyOr (pyOr (.atom "int") (.atom "str")) (.atom "NoneType") ∧
    GenericContainer.unwrap (.container (.atom "types.UnionType")
      [.atom "int", .atom "str", .atom "NoneType"]) =
      .bitUnion [.atom "int", .atom "str", .atom "NoneType"] ∧
    isBitUnionType (GenericContainer.unwrap (.container (.atom "types.UnionType")
      [.atom "int", .atom "str", .atom "NoneType"])) = true := by
  refine ⟨?_, by decide, by decide, by decide⟩
  subst h
  rw [gc_unwrap_eq_base (by intro c k; simp)]
  exact unwrap_container_cons_union a0 rest

theorem uniontype_unwrap_fold_witness :
    ([PyVal.atom "int", PyVal.atom "str", PyVal.atom "NoneType"] =
      PyVal.atom "int" :: [PyVal.atom "str", PyVal.atom "NoneType"]) ∧
    GenericContainer.unwrap (.container (.atom "types.UnionType")
      [.atom "int", .atom "str", .atom "NoneType"]) =
      (BaseContainer.unwrapList [PyVal.atom "str", PyVal.atom "NoneType"]).foldl pyOr
        (BaseContainer.unwrap (.atom "int")) :=
  ⟨rfl, (uniontype_unwrap_fold _ _ _ rfl).1⟩

mutual

/-- Whether a data value contains no dataclass instance in any position
that dataclasses.asdict recurses into (directly, or inside dicts/lists). -/
def dcFree : PyVal → Bool
  | .dcInst _ _ => false
  | .pyDict entries => dcFreeFields entries
  | .pyList elems => dcFreeList elems
  | _ => true

/-- dcFree over the values of a name-value mapping. -/
def dcFreeFields : List (String × PyVal) → Bool
  | [] => true
  | (_, v) :: rest => dcFree v && dcFreeFields rest

/-- dcFree over a list of values. -/
def dcFreeList : List PyVal → Bool
  | [] => true
  | x :: xs => dcFree x && dcFreeList xs

end

lemma dcFreeFields_iff {l : List (String × PyVal)} :
    dcFreeFields l = true ↔ ∀ p ∈ l, dcFree p.2 = true := by
  induction l with
  | nil => simp [dcFreeFields]
  | cons p rest ih =>
    obtain ⟨k, v⟩ := p
    simp [dcFreeFields, Bool.and_eq_true, ih]

lemma dcFreeList_iff {l : List PyVal} :
    dcFreeList l = true ↔ ∀ x ∈ l, dcFree x = true := by
  induction l with
  | nil => simp [dcFreeList]
  | cons x xs ih => simp [dcFreeList, Bool.and_eq_true, ih]

lemma asdictFields_eq (entries : List (String × PyVal))
    (hIH : ∀ p ∈ entries, asdictVal p.2 = p.2) : asdictFields entries = entries := by
  induction entries with
  | nil => rfl
  | cons p rest ih =>
    obtain ⟨k, v⟩ := p
    simp only [asdictFields]
    rw [hIH ⟨k, v⟩ (by simp), ih fun p hp => hIH p (by simp [hp])]

lemma asdictList_eq (elems : List PyVal)
    (hIH : ∀ x ∈ elems, asdictVal x = x) : asdictList elems = elems := by
  induction elems with
  | nil => rfl
  | cons x xs ih =>
    simp only [asdictList]
    rw [hIH x (by simp), ih fun y hy => hIH y (by simp [hy])]

lemma asdict_eq_self_sized : ∀ (n : Nat) (v : PyVal), sizeOf v ≤ n →
    dcFree v = true → asdictVal v = v := by
  intro n
  induction n with
  | zero =>
    intro v hsize _
    exact absurd hsize (by cases v <;> simp_arith)
  | succ n ih =>
    intro v hsize hfree
    cases v
    case dcInst c f => simp [dcFree] at hfree
    case pyDict entries =>
      have hvals : ∀ p ∈ entries, dcFree p.2 = true :=
        dcFreeFields_iff.mp (by simpa [dcFree] using hfree)
      have hsz : ∀ p ∈ entries, sizeOf p.2 ≤ n := by
        intro p hp
        have h1 := List.sizeOf_lt_of_mem hp
        have h2 : sizeOf entries < sizeOf (PyVal.pyDict entries) := by simp_arith
        obtain ⟨a, b⟩ := p
        simp only [Prod.mk.sizeOf_spec] at h1 ⊢
        omega
      simp only [asdictVal]
      rw [asdictFields_eq entries fun p hp => ih p.2 (hsz p hp) (hvals p hp)]
    case pyList elems =>
      have hvals : ∀ x ∈ elems, dcFree x = true :=
        dcFreeList_iff.mp (by simpa [dcFree] using hfree)
      have hsz : ∀ x ∈ elems, sizeOf x ≤ n := by
        intro x hx
        have h1 := List.sizeOf_lt_of_mem hx
        have h2 : sizeOf elems < sizeOf (PyVal.pyList elems) := by simp_arith
        omega
      simp only [asdictVal]
      rw [asdictList_eq elems fun x hx => ih x (hsz x hx) (hvals x hx)]
    all_goals simp [asdictVal]

mutual

/-- Python equality, restricted to the data-value fragment handled by
DataclassContainer (atoms, None, strings, ints, lists, dicts, dataclass
instances). A dataclass instance compares fieldwise only against an
instance of the same class; a dict never equals a dataclass instance;
remaining cross-kind comparisons on this fragment are unequal. Dicts are
compared positionally, which agrees with Python on dicts sharing
construction order (as all dicts compared here do). -/
def pyEq : PyVal → PyVal → Bool
  | .atom a, .atom b => a == b
  | .pyNone, .pyNone => true
  | .pyStr a, .pyStr b => a == b
  | .pyInt a, .pyInt b => a == b
  | .pyList a, .pyList b => pyEqList a b
  | .pyDict a, .pyDict b => pyEqFields a b
  | .dcInst c1 f1, .dcInst c2 f2 => c1 == c2 && pyEqFields f1 f2
  | _, _ => false

/-- pyEq over lists of values. -/
def pyEqList : List PyVal → List PyVal → Bool
  | [], [] => true
  | x :: xs, y :: ys => pyEq x y && pyEqList xs ys
  | _, _ => false

/-- pyEq over name-value mappings. -/
def pyEqFields : List (String × PyVal) → List (String × PyVal) → Bool
  | [], [] => true
  | (k1, v1) :: xs, (k2, v2) :: ys => k1 == k2 && pyEq v1 v2 && pyEqFields xs ys
  | _, _ => false

end

/-- C8, amended: wrapping a dataclass instance snapshots its field values
through dataclasses.asdict; unwrap(wrap(instance)) reconstructs the
instance exactly when no field value contains a dataclass instance. -/
theorem dataclass_roundtrip_flat (cls : String) (fields : List (String × PyVal))
    (h : dcFreeFields fields = true) :
    DataclassContainer.unwrap (DataclassContainer.wrap (.dcInst cls fields)) =
      .dcInst cls fields := by
  simp only [DataclassContainer.wrap, DataclassContainer.unwrap]
  rw [asdictFields_eq fields fun p hp =>
    asdict_eq_self_sized (sizeOf p.2) p.2 le_rfl (dcFreeFields_iff.mp h p hp)]

theorem dataclass_roundtrip_flat_witness :
    dcFreeFields [("a", PyVal.pyStr "x"), ("b", PyVal.pyDict [("k", PyVal.pyInt 1)])] = true ∧
    DataclassContainer.unwrap (DataclassContainer.wrap
      (.dcInst "Sample" [("a", PyVal.pyStr "x"), ("b", PyVal.pyDict [("k", PyVal.pyInt 1)])])) =
      .dcInst "Sample" [("a", PyVal.pyStr "x"), ("b", PyVal.pyDict [("k", PyVal.pyInt 1)])] :=
  ⟨by decide, dataclass_roundtrip_flat "Sample" _ (by decide)⟩

/-- C8, counterexample: an instance whose field holds a dataclass instance
does not round-trip: dataclasses.asdict converts the nested instance to a
plain dict, keyword reconstruction keeps the dict, and the result is not
Python-equal to the original instance. -/
theorem dataclass_roundtrip_nested_counterexample :
    DataclassContainer.unwrap (DataclassContainer.wrap
      (.dcInst "Outer" [("inner", .dcInst "Inner" [("x", .pyInt 1)])])) =
      .dcInst "Outer" [("inner", .pyDict [("x", .pyInt 1)])] ∧
    pyEq (DataclassContainer.unwrap (DataclassContainer.wrap
      (.dcInst "Outer" [("inner", .dcInst "Inner" [("x", .pyInt 1)])])))
      (.dcInst "Outer" [("inner", .dcInst "Inner" [("x", .pyInt 1)])]) = false := by
  constructor <;> decide

/-- Exceptions surfaced by the adapter: the configuration error
ImproperlyConfiguredSchema, NameError (failed forward-reference
evaluation), msgspec validation and decode errors, and TypeError. -/
inductive PyError : Type where
  | improperlyConfigured (msg : String)
  | nameError (msg : String)
  | validationError (msg : String)
  | decodeError (msg : String)
  | typeError (msg : String)
  deriving DecidableEq

/-- The ExportKwargs dict of the adapter. Each field is none when the key
is absent from the dict and some v when present with value v, so that
structural equality is Python dict equality. The include and exclude
values are sets of field names (modelled as lists); hook callables are
modelled by name. -/
structure ExportKwargs : Type where
  encHook : Option (Option String) := none
  decHook : Option (Option String) := none
  strict : Option Bool := none
  includeFields : Option (Option (List String)) := none
  excludeFields : Option (Option (List String)) := none
  byAlias : Option Bool := none
  excludeNone : Option Bool := none
  excludeDefaults : Option Bool := none
  excludeUnset : Option Bool := none
  deriving DecidableEq

/-- The owner class a bound adapter points to: its name, its own
annotation table (its dict entry for annotations, not inherited), its own
members (vars(cls)) and its defining module's globals. -/
structure ClassInfo : Type where
  name : String
  annots : List (String × PyVal)
  localNs : List (String × PyVal)
  globalNs : List (String × PyVal)
  deriving DecidableEq

/-- msgspec.json.Encoder construction parameters. -/
structure JsonEncoder : Type where
  encHook : Option String
  deriving DecidableEq

/-- msgspec.json.Decoder construction parameters: the prepared schema,
dec_hook and strict. -/
structure JsonDecoder : Type where
  schema : PyVal
  decHook : Option String
  strict : Bool
  deriving DecidableEq

/-- SchemaAdapter state: the raw schema (the value None when absent),
owner type, attribute name, allow_null, the export kwargs, and the
cached_property storage of prepared_schema, _encoder and _decoder
(cached_property stores successful results only; entries are popped by
bind). -/
structure SchemaAdapter : Type where
  schema : PyVal
  parentType : Option ClassInfo
  attname : Option String
  allowNull : Option Bool
  exportKwargs : ExportKwargs
  cachedPrepared : Option PyVal := none
  cachedEncoder : Option JsonEncoder := none
  cachedDecoder : Option JsonDecoder := none
  deriving DecidableEq

/-- SchemaAdapter.__init__: stores BaseContainer.unwrap(schema) together
with the remaining arguments; no caches are populated. -/
def SchemaAdapter.init (schema : PyVal) (parentType : Option ClassInfo)
    (attname : Option String) (allowNull : Option Bool) (kw : ExportKwargs) :
    SchemaAdapter :=
  { schema := BaseContainer.unwrap schema
    parentType := parentType
    attname := attname
    allowNull := allowNull
    exportKwargs := kw }

/-- is_bound: both parent_type and attname are set. -/
def SchemaAdapter.isBound (ad : SchemaAdapter) : Bool :=
  ad.parentType.isSome && ad.attname.isSome

/-- bind: rebinds the adapter to the owner and attribute and pops the
cached prepared_schema, _decoder and _encoder entries. -/
def SchemaAdapter.bind (ad : SchemaAdapter) (parentType : Option ClassInfo)
    (attname : Option String) : SchemaAdapter :=
  { ad with parentType := parentType, attname := attname,
            cachedPrepared := none, cachedDecoder := none, cachedEncoder := none }

/-- _guess_schema_from_annotations: look up the attribute in the owner's
own annotation table, defaulting to None. -/
def SchemaAdapter.guessSchemaFromAnnots (ad : SchemaAdapter) : PyVal :=
  match ad.parentType, ad.attname with
  | some c, some n => (alookup n c.annots).getD .pyNone
  | _, _ => .pyNone

/-- get_namespace: ChainMap of the owner's own members over its module
globals (local wins); an unbound adapter yields an empty namespace. -/
def nsLookup (parentType : Option ClassInfo) (name : String) : Option PyVal :=
  match parentType with
  | some c =>
    match alookup name c.localNs with
    | some v => some v
    | none => alookup name c.globalNs
  | none => none

mutual

/-- Nesting depth of values; GenericContainer.wrap preserves it, which
justifies termination of the recursive forward-reference resolver and of
the migration serializer. -/
def pdepth : PyVal → Nat
  | .generic origin args => 1 + max (pdepth origin) (pdepthList args)
  | .bitUnion args => 1 + pdepthList args
  | .annotated base metas => 1 + max (pdepth base) (pdepthList metas)
  | .container origin args => 1 + max (pdepth origin) (pdepthList args)
  | .pyList elems => 1 + pdepthList elems
  | .pyDict entries => 1 + pdepthFields entries
  | .meta fields => 1 + pdepthFields fields
  | .dcInst _ fields => 1 + pdepthFields fields
  | .dcContainer _ kwargs => 1 + pdepthFields kwargs
  | _ => 0

/-- Maximum pdepth over a list. -/
def pdepthList : List PyVal → Nat
  | [] => 0
  | x :: xs => max (pdepth x) (pdepthList xs)

/-- Maximum pdepth over the values of a name-value mapping. -/
def pdepthFields : List (String × PyVal) → Nat
  | [] => 0
  | (_, v) :: rest => max (pdepth v) (pdepthFields rest)

end

lemma pdepthList_wrapList {l : List PyVal}
    (hIH : ∀ a ∈ l, pdepth (GenericContainer.wrap a) = pdepth a) :
    pdepthList (GenericContainer.wrapList l) = pdepthList l := by
  induction l with
  | nil => rfl
  | cons x xs ih =>
    simp only [GenericContainer.wrapList, pdepthList]
    rw [hIH x (by simp), ih fun a ha => hIH a (by simp [ha])]

lemma pdepth_wrap_sized : ∀ (n : Nat) (v : PyVal), sizeOf v ≤ n →
    pdepth (GenericContainer.wrap v) = pdepth v := by
  intro n
  induction n with
  | zero =>
    intro v hsize
    exact absurd hsize (by cases v <;> simp_arith)
  | succ n ih =>
    intro v hsize
    cases v
    case generic origin args =>
      have hm : ∀ a ∈ args, pdepth (GenericContainer.wrap a) = pdepth a := by
        intro a haa
        have h1 := List.sizeOf_lt_of_mem haa
        have h2 : sizeOf args < sizeOf (PyVal.generic origin args) := by simp_arith
        exact ih a (by omega)
      simp only [GenericContainer.wrap, pdepth]
      rw [pdepthList_wrapList hm]
    case bitUnion args =>
      have hm : ∀ a ∈ args, pdepth (GenericContainer.wrap a) = pdepth a := by
        intro a haa
        have h1 := List.sizeOf_lt_of_mem haa
        have h2 : sizeOf args < sizeOf (PyVal.bitUnion args) := by simp_arith
        exact ih a (by omega)
      simp only [GenericContainer.wrap, pdepth]
      rw [pdepthList_wrapList hm]
      omega
    case annotated base metas =>
      have hb : pdepth (GenericContainer.wrap base) = pdepth base := by
        have : sizeOf base < sizeOf (PyVal.annotated base metas) := by simp_arith
        exact ih base (by omega)
      have hm : ∀ a ∈ metas, pdepth (GenericContainer.wrap a) = pdepth a := by
        intro a haa
        have h1 := List.sizeOf_lt_of_mem haa
        have h2 : sizeOf metas < sizeOf (PyVal.annotated base metas) := by simp_arith
        exact ih a (by omega)
      simp only [GenericContainer.wrap, pdepth, pdepthList]
      rw [hb, pdepthList_wrapList hm]
      omega
    all_goals simp [GenericContainer.wrap]

lemma pdepth_wrap (v : PyVal) : pdepth (GenericContainer.wrap v) = pdepth v :=
  pdepth_wrap_sized (sizeOf v) v le_rfl

mutual

/-- _resolve_schema_forward_ref: None stays None; a forward reference is
evaluated against the owner namespace, raising NameError (carried as the
error message) when unresolvable; otherwise the schema is wrapped, and if
the wrapping produced a container, origin and args are recursively
resolved and the result re-materialized through GenericContainer.unwrap;
non-generic values are returned unchanged. -/
def SchemaAdapter.resolveFR (ad : SchemaAdapter) : PyVal → Except String PyVal
  | .pyNone => .ok .pyNone
  | .forwardRef name =>
    match nsLookup ad.parentType name with
    | some v => .ok v
    | none => .error ("name '" ++ name ++ "' is not defined")
  | s =>
    match hw : GenericContainer.wrap s with
    | .container origin args =>
      match SchemaAdapter.resolveFR ad origin with
      | .error e => .error e
      | .ok origin2 =>
        match SchemaAdapter.resolveFRList ad args with
        | .error e => .error e
        | .ok args2 => .ok (GenericContainer.unwrap (.container origin2 args2))
    | _ => .ok s
termination_by s => (pdepth s, 0)
decreasing_by
  · apply Prod.Lex.left
    rw [← pdepth_wrap s, hw]
    simp only [pdepth]
    omega
  · apply Prod.Lex.left
    rw [← pdepth_wrap s, hw]
    simp only [pdepth]
    omega

/-- Pointwise resolution of a container's argument tuple. -/
def SchemaAdapter.resolveFRList (ad : SchemaAdapter) :
    List PyVal → Except String (List PyVal)
  | [] => .ok []
  | x :: xs =>
    match SchemaAdapter.resolveFR ad x with
    | .error e => .error e
    | .ok x2 =>
      match SchemaAdapter.resolveFRList ad xs with
      | .error e => .error e
      | .ok xs2 => .ok (x2 :: xs2)
termination_by l => (pdepthList l, l.length + 1)
decreasing_by
  · rcases Nat.lt_or_ge (pdepth x) (pdepthList (x :: xs)) with hlt | hge
    · exact Prod.Lex.left _ _ hlt
    · have heq : pdepth x = pdepthList (x :: xs) := by
        simp only [pdepthList] at hge ⊢
        omega
      rw [heq]
      exact Prod.Lex.right _ (by omega)
  · rcases Nat.lt_or_ge (pdepthList xs) (pdepthList (x :: xs)) with hlt | hge
    · exact Prod.Lex.left _ _ hlt
    · have heq : pdepthList xs = pdepthList (x :: xs) := by
        simp only [pdepthList] at hge ⊢
        omega
      rw [heq]
      exact Prod.Lex.right _ (by simp only [List.length_cons]; omega)

end

/-- The configuration error message for an adapter accessed before
binding. -/
def unboundMsg : String :=
  "Cannot resolve the schema. The adapter is accessed before it was bound."

/-- The configuration error message raised by _prepare_schema when the
schema is still None: names the owner class and attribute when bound,
and reports unbound access otherwise. -/
def SchemaAdapter.configErrorMsg (ad : SchemaAdapter) : String :=
  if ad.isBound = true then
    "Annotation is not provided for " ++ ((ad.parentType.map ClassInfo.name).getD "") ++
      "." ++ (ad.attname.getD "")
  else unboundMsg

/-- typing.Optional[s] builds typing.Union[s, NoneType]. -/
def optionalWrap (s : PyVal) : PyVal :=
  unionSubscript [s, .atom "NoneType"]

/-- The annotation-lookup and forward-reference stage of _prepare_schema:
a None schema on a bound adapter is looked up in the owner's annotations,
a string becomes a ForwardRef, and the result is resolved recursively.
The error channel carries NameError messages. -/
def SchemaAdapter.resolutionResult (ad : SchemaAdapter) : Except String PyVal :=
  let schema := ad.schema
  let schema := if schema = .pyNone ∧ ad.isBound = true then ad.guessSchemaFromAnnots else schema
  let schema := match schema with
    | .pyStr s => .forwardRef s
    | s => s
  ad.resolveFR schema

/-- _prepare_schema: resolve, fail with ImproperlyConfiguredSchema when
the result is still None, and wrap with Optional when allow_null is
true. NameError from resolution propagates as such. -/
def SchemaAdapter.prepareSchemaResult (ad : SchemaAdapter) : Except PyError PyVal :=
  match ad.resolutionResult with
  | .error msg => .error (.nameError msg)
  | .ok s =>
    if s = .pyNone then .error (.improperlyConfigured ad.configErrorMsg)
    else .ok (if ad.allowNull = some true then optionalWrap s else s)

/-- validate_schema: force preparation, re-raising any exception other
than ImproperlyConfiguredSchema as ImproperlyConfiguredSchema with the
same arguments, and passing ImproperlyConfiguredSchema through. -/
def SchemaAdapter.validateSchema (ad : SchemaAdapter) : Except PyError Unit :=
  match ad.prepareSchemaResult with
  | .ok _ => .ok ()
  | .error (.improperlyConfigured m) => .error (.improperlyConfigured m)
  | .error (.nameError m) => .error (.improperlyConfigured m)
  | .error (.validationError m) => .error (.improperlyConfigured m)
  | .error (.decodeError m) => .error (.improperlyConfigured m)
  | .error (.typeError m) => .error (.improperlyConfigured m)

/-- Read-through access of the prepared_schema cached_property: the cached
value is returned if present, otherwise _prepare_schema runs and a
successful result is stored; exceptions are not cached. -/
def SchemaAdapter.accessPrepared (ad : SchemaAdapter) :
    Except PyError (PyVal × SchemaAdapter) :=
  match ad.cachedPrepared with
  | some s => .ok (s, ad)
  | none =>
    match ad.prepareSchemaResult with
    | .ok s => .ok (s, { ad with cachedPrepared := some s })
    | .error e => .error e

/-- Read-through access of the _encoder cached_property:
msgspec.json.Encoder(enc_hook=export_kwargs.get("enc_hook")). -/
def SchemaAdapter.accessEncoder (ad : SchemaAdapter) :
    JsonEncoder × SchemaAdapter :=
  match ad.cachedEncoder with
  | some e => (e, ad)
  | none =>
    let e : JsonEncoder := ⟨ad.exportKwargs.encHook.getD none⟩
    (e, { ad with cachedEncoder := some e })

/-- Read-through access of the _decoder cached_property:
msgspec.json.Decoder(prepared_schema, dec_hook, strict). -/
def SchemaAdapter.accessDecoder (ad : SchemaAdapter) :
    Except PyError (JsonDecoder × SchemaAdapter) :=
  match ad.cachedDecoder with
  | some d => .ok (d, ad)
  | none =>
    match ad.accessPrepared with
    | .error e => .error e
    | .ok (s, ad2) =>
      let d : JsonDecoder :=
        ⟨s, ad2.exportKwargs.decHook.getD none, ad2.exportKwargs.strict.getD false⟩
      .ok (d, { ad2 with cachedDecoder := some d })

/-- validate_python: None with a truthy allow_null is returned unchanged
before any schema access; otherwise the value is converted into the
prepared schema by msgspec.convert, an external primitive passed as a
parameter (value, prepared schema, dec_hook, strict). An explicit strict
argument overrides the stored strict option. -/
def SchemaAdapter.validatePython
    (convert : PyVal → PyVal → Option String → Bool → Except PyError PyVal)
    (ad : SchemaAdapter) (value : PyVal) (strict : Option Bool) :
    Except PyError PyVal :=
  if value = .pyNone ∧ ad.allowNull = some true then .ok value
  else
    let decHook := ad.exportKwargs.decHook.getD none
    let strictv := match strict with
      | some b => b
      | none => ad.exportKwargs.strict.getD false
    match ad.prepareSchemaResult with
    | .error e => .error e
    | .ok s => convert value s decHook strictv

/-- Truthiness of the include and exclude option values: None and the
empty set are falsy. -/
def truthySet : Option (List String) → Bool
  | none => false
  | some l => !l.isEmpty

/-- The per-key loop of _filter_dict. A key is skipped when the exclude
set is truthy and holds it; when the include set is truthy and does not
hold it; when exclude_none is set and the value is None; and the
exclude_defaults branch first tests key membership in the defaults
object - in msgspec a tuple of default values, so the membership compares
the key string against default values, and on a hit the subsequent
string indexing of the tuple raises TypeError. -/
def filterDictGo (defaults : List PyVal) (includeSet excludeSet : Option (List String))
    (excludeNone excludeDefaults : Bool) :
    List (String × PyVal) → Except PyError (List (String × PyVal))
  | [] => .ok []
  | (key, value) :: rest =>
    if truthySet excludeSet = true ∧ key ∈ (excludeSet.getD []) then
      filterDictGo defaults includeSet excludeSet excludeNone excludeDefaults rest
    else if truthySet includeSet = true ∧ key ∉ (includeSet.getD []) then
      filterDictGo defaults includeSet excludeSet excludeNone excludeDefaults rest
    else if excludeNone = true ∧ value = .pyNone then
      filterDictGo defaults includeSet excludeSet excludeNone excludeDefaults rest
    else if excludeDefaults = true ∧ (PyVal.pyStr key) ∈ defaults then
      .error (.typeError "tuple indices must be integers or slices, not str")
    else
      match filterDictGo defaults includeSet excludeSet excludeNone excludeDefaults rest with
      | .ok r => .ok ((key, value) :: r)
      | .error e => .error e

/-- _filter_dict: the defaults object is taken from the original value's
attribute for struct defaults when exclude_defaults is set and the
attribute exists (in msgspec it is a tuple of default values), then the
converted mapping is filtered key by key in insertion order.
structDefaults is none when the original value has no such attribute. -/
def SchemaAdapter.filterDict (data : List (String × PyVal))
    (includeSet excludeSet : Option (List String))
    (excludeNone excludeDefaults : Bool)
    (structDefaults : Option (List PyVal)) : Except PyError (List (String × PyVal)) :=
  let defaults : List PyVal :=
    if excludeDefaults = true ∧ structDefaults.isSome then structDefaults.getD [] else []
  filterDictGo defaults includeSet excludeSet excludeNone excludeDefaults data

/-- Decidable equality for Except results. -/
def exceptDecEq {e a : Type} [DecidableEq e] [DecidableEq a] :
    (x y : Except e a) → Decidable (x = y)
  | .ok x, .ok y =>
    match decEq x y with
    | isTrue h => isTrue (by rw [h])
    | isFalse h => isFalse (by intro hh; injection hh; contradiction)
  | .error x, .error y =>
    match decEq x y with
    | isTrue h => isTrue (by rw [h])
    | isFalse h => isFalse (by intro hh; injection hh; contradiction)
  | .ok _, .error _ => isFalse (fun h => Except.noConfusion h)
  | .error _, .ok _ => isFalse (fun h => Except.noConfusion h)

instance {e a : Type} [DecidableEq e] [DecidableEq a] : DecidableEq (Except e a) :=
  exceptDecEq

/-- C4: _filter_dict treats the struct defaults tuple as a name-keyed
mapping. On the claim's composition input, a struct {a: "x", b: None,
c: 1} whose field c has declared default 1, with exclude_none and
exclude_defaults both true, the key c is kept (the membership test
compares the key string "c" against the defaults tuple (1,)), so the
output is {a: "x", c: 1} and not the specified {a: "x"}; and whenever a
key string does occur among the default values, the string indexing of
the tuple raises TypeError. -/
theorem filter_dict_exclude_defaults_failing_input :
    SchemaAdapter.filterDict
      [("a", .pyStr "x"), ("b", .pyNone), ("c", .pyInt 1)]
      none none true true (some [.pyInt 1]) =
      .ok [("a", .pyStr "x"), ("c", .pyInt 1)] ∧
    SchemaAdapter.filterDict [("c", .pyStr "v")] none none false true
      (some [.pyStr "c"]) =
      .error (.typeError "tuple indices must be integers or slices, not str") := by
  constructor <;> decide

/-- C5: with allow_null true, validate_python(None) returns None unchanged
for every conversion primitive and every adapter state, in particular
without forcing schema resolution. -/
theorem validate_python_null_short_circuit
    (convert : PyVal → PyVal → Option String → Bool → Except PyError PyVal)
    (ad : SchemaAdapter) (strict : Option Bool) (h : ad.allowNull = some true) :
    SchemaAdapter.validatePython convert ad .pyNone strict = .ok .pyNone := by
  unfold SchemaAdapter.validatePython
  rw [if_pos ⟨rfl, h⟩]

/-- A conversion primitive that fails whenever it is invoked. -/
def failingConvert : PyVal → PyVal → Option String → Bool → Except PyError PyVal :=
  fun _ _ _ _ => .error (.validationError "conversion invoked")

/-- An unbound adapter with no schema and allow_null=True: its schema can
never resolve. -/
def nullUnresolvableAdapter : SchemaAdapter :=
  { schema := .pyNone, parentType := none, attname := none,
    allowNull := some true, exportKwargs := {} }

theorem validate_python_null_short_circuit_witness :
    SchemaAdapter.validatePython failingConvert nullUnresolvableAdapter .pyNone none =
      .ok .pyNone ∧
    nullUnresolvableAdapter.prepareSchemaResult =
      .error (.improperlyConfigured unboundMsg) :=
  ⟨validate_python_null_short_circuit failingConvert nullUnresolvableAdapter none rfl,
   by simp [nullUnresolvableAdapter, SchemaAdapter.prepareSchemaResult,
     SchemaAdapter.resolutionResult, SchemaAdapter.resolveFR, SchemaAdapter.isBound,
     SchemaAdapter.configErrorMsg]⟩

/-- C6: schema preparation fails with ImproperlyConfiguredSchema exactly
when resolution yields None; the message names the owner class and
attribute when bound and reports unbound access otherwise; and
validate_schema on an unbound adapter with no explicit schema raises the
configuration error with the unbound-access message. -/
theorem prepare_schema_config_error_iff (ad : SchemaAdapter) :
    ((∃ m, ad.prepareSchemaResult = .error (.improperlyConfigured m)) ↔
      ad.resolutionResult = .ok .pyNone) ∧
    (ad.resolutionResult = .ok .pyNone →
      ad.prepareSchemaResult = .error (.improperlyConfigured ad.configErrorMsg)) ∧
    (ad.isBound = false → ad.schema = .pyNone →
      ad.validateSchema = .error (.improperlyConfigured unboundMsg)) := by
  have hmk : ad.resolutionResult = .ok .pyNone →
      ad.prepareSchemaResult = .error (.improperlyConfigured ad.configErrorMsg) := by
    intro hres
    unfold SchemaAdapter.prepareSchemaResult
    rw [hres]
    simp
  refine ⟨⟨?_, fun hres => ⟨ad.configErrorMsg, hmk hres⟩⟩, hmk, ?_⟩
  · rintro ⟨m, hm⟩
    unfold SchemaAdapter.prepareSchemaResult at hm
    cases hres : ad.resolutionResult with
    | error msg => simp [hres] at hm
    | ok s =>
      rw [hres] at hm
      by_cases hs : s = .pyNone
      · rw [hs]
      · simp [hs] at hm
  · intro hb hs
    have hres : ad.resolutionResult = .ok .pyNone := by
      unfold SchemaAdapter.resolutionResult
      rw [hs]
      have hb2 : ¬(ad.parentType.isSome = true ∧ ad.attname.isSome = true) := by
        intro hc
        unfold SchemaAdapter.isBound at hb
        rw [hc.1, hc.2] at hb
        simp at hb
      simp [hb, hb2, SchemaAdapter.resolveFR]
    unfold SchemaAdapter.validateSchema
    rw [hmk hres]
    unfold SchemaAdapter.configErrorMsg
    rw [if_neg (by intro hbt; rw [hb] at hbt; exact Bool.noConfusion hbt)]

/-- An unbound adapter (attribute name set but no owner) with no explicit
schema. -/
def unboundNoSchemaAdapter : SchemaAdapter :=
  { schema := .pyNone, parentType := none, attname := some "field",
    allowNull := none, exportKwargs := {} }

theorem prepare_schema_config_error_iff_witness :
    unboundNoSchemaAdapter.isBound = false ∧
    unboundNoSchemaAdapter.schema = .pyNone ∧
    unboundNoSchemaAdapter.validateSchema = .error (.improperlyConfigured unboundMsg) :=
  ⟨rfl, rfl, (prepare_schema_config_error_iff unboundNoSchemaAdapter).2.2 rfl rfl⟩

/-- C9: bind sets the owner and attribute and removes all three cached
entries, and a second bind with the same arguments leaves the adapter in
the same state. -/
theorem bind_invalidates_and_idempotent (ad : SchemaAdapter)
    (p : Option ClassInfo) (n : Option String) :
    (ad.bind p n).cachedPrepared = none ∧
    (ad.bind p n).cachedEncoder = none ∧
    (ad.bind p n).cachedDecoder = none ∧
    (ad.bind p n).parentType = p ∧
    (ad.bind p n).attname = n ∧
    (ad.bind p n).bind p n = ad.bind p n :=
  ⟨rfl, rfl, rfl, rfl, rfl, rfl⟩

/-- The slice of MsgspecSchemaField.__init__ relevant to schema handling:
the field stores BaseContainer.unwrap(schema) and constructs its adapter
from the original schema argument, its attribute name and the null flag. -/
structure MsgspecSchemaField : Type where
  schema : PyVal
  adapter : SchemaAdapter
  deriving DecidableEq

/-- MsgspecSchemaField.__init__ (schema handling slice). -/
def MsgspecSchemaField.init (schema : PyVal) (attname : String) (null : Bool)
    (kw : ExportKwargs) : MsgspecSchemaField :=
  { schema := BaseContainer.unwrap schema
    adapter := SchemaAdapter.init schema none (some attname) (some null) kw }

/-- C10: the adapter constructor (and the model field constructor) unwraps
a container-wrapped schema on construction, so an adapter (or field)
constructed from wrap(T) is the same state as one constructed from T. -/
theorem init_unwraps_container (T : PyVal) (h : supportedType T = true)
    (p : Option ClassInfo) (n : Option String) (an : Option Bool) (kw : ExportKwargs)
    (attname : String) (null : Bool) :
    SchemaAdapter.init (GenericContainer.wrap T) p n an kw =
      SchemaAdapter.init T p n an kw ∧
    MsgspecSchemaField.init (GenericContainer.wrap T) attname null kw =
      MsgspecSchemaField.init T attname null kw := by
  have hb : BaseContainer.unwrap (GenericContainer.wrap T) = T :=
    unwrap_wrap_sized (sizeOf T) T le_rfl h
  have hraw : BaseContainer.unwrap T = T := by
    apply unwrap_eq_self_of_not_container
    cases T <;> first | rfl | (simp [supportedType] at h)
  constructor
  · unfold SchemaAdapter.init
    rw [hb, hraw]
  · unfold MsgspecSchemaField.init SchemaAdapter.init
    rw [hb, hraw]

theorem init_unwraps_container_witness :
    supportedType sampleSupportedShape = true ∧
    SchemaAdapter.init (GenericContainer.wrap sampleSupportedShape) none none none {} =
      SchemaAdapter.init sampleSupportedShape none none none {} :=
  ⟨by decide,
   (init_unwraps_container sampleSupportedShape (by decide) none none none {} "f" false).1⟩

/-- An entry of the comparison lists built by SchemaAdapter.__eq__
(attname, export kwargs, prepared schema appended inside the try block,
and the raw schema and allow_null appended by the fallback). Python
compares the two lists elementwise; when their lengths differ the lists
are unequal, and at equal length the kinds align positionally. -/
inductive EqItem : Type where
  | nameItem (s : Option String)
  | kwItem (k : ExportKwargs)
  | preparedItem (s : PyVal)
  | rawItem (s : PyVal)
  | nullItem (b : Option Bool)
  deriving DecidableEq

/-- SchemaAdapter.__eq__ between two adapters of the same class: both
field lists start as [attname, export_kwargs]; the try block appends
self's prepared schema and then other's; an ImproperlyConfiguredSchema
from either side is caught - if both adapters are bound the comparison is
False, otherwise both lists are extended with the raw schema and
allow_null (note that when self resolved first, self's list already holds
its prepared schema and has five entries against other's four). Any other
exception (NameError) propagates. -/
def SchemaAdapter.adapterEq (a b : SchemaAdapter) : Except PyError Bool :=
  let sf : List EqItem := [.nameItem a.attname, .kwItem a.exportKwargs]
  let og : List EqItem := [.nameItem b.attname, .kwItem b.exportKwargs]
  match a.prepareSchemaResult with
  | .ok pa =>
    match b.prepareSchemaResult with
    | .ok pb => .ok (decide (sf ++ [.preparedItem pa] = og ++ [.preparedItem pb]))
    | .error (.improperlyConfigured _) =>
      if a.isBound = true ∧ b.isBound = true then .ok false
      else .ok (decide (sf ++ [.preparedItem pa, .rawItem a.schema, .nullItem a.allowNull] =
        og ++ [.rawItem b.schema, .nullItem b.allowNull]))
    | .error e => .error e
  | .error (.improperlyConfigured _) =>
    if a.isBound = true ∧ b.isBound = true then .ok false
    else .ok (decide (sf ++ [.rawItem a.schema, .nullItem a.allowNull] =
      og ++ [.rawItem b.schema, .nullItem b.allowNull]))
  | .error e => .error e

/-- A bound adapter with no explicit schema whose owner annotates the
attribute f as int, so its schema resolves. -/
def eqAdapterA : SchemaAdapter :=
  { schema := .pyNone, parentType := some ⟨"M", [("f", .atom "int")], [], []⟩,
    attname := some "f", allowNull := none, exportKwargs := {} }

/-- An unbound adapter with no explicit schema and the same attribute
name, raw schema and allow_null as eqAdapterA: its resolution raises the
configuration error. -/
def eqAdapterB : SchemaAdapter :=
  { schema := .pyNone, parentType := none, attname := some "f",
    allowNull := none, exportKwargs := {} }

/-- C7, counterexample: the comparison is not symmetric. When the left
adapter resolves and the right raises the configuration error, the left
field list carries five entries against four and the comparison is False;
in the reverse order the exception fires before anything extra is
appended and the raw-field fallback compares equal. -/
theorem adapter_eq_asymmetric_counterexample :
    SchemaAdapter.adapterEq eqAdapterA eqAdapterB = .ok false ∧
    SchemaAdapter.adapterEq eqAdapterB eqAdapterA = .ok true := by
  have hA : eqAdapterA.prepareSchemaResult = .ok (.atom "int") := by
    simp [eqAdapterA, SchemaAdapter.prepareSchemaResult, SchemaAdapter.resolutionResult,
      SchemaAdapter.resolveFR, SchemaAdapter.isBound, SchemaAdapter.guessSchemaFromAnnots,
      alookup, GenericContainer.wrap]
  have hB : eqAdapterB.prepareSchemaResult = .error (.improperlyConfigured unboundMsg) := by
    simp [eqAdapterB, SchemaAdapter.prepareSchemaResult, SchemaAdapter.resolutionResult,
      SchemaAdapter.resolveFR, SchemaAdapter.isBound, SchemaAdapter.configErrorMsg]
  constructor
  · unfold SchemaAdapter.adapterEq
    rw [hA, hB]
    decide
  · unfold SchemaAdapter.adapterEq
    rw [hA, hB]
    decide

/-- C7, amended: equality compares attname, export kwargs and the
resolved schemas when both sides resolve, falls back as specified when
resolution fails, and is symmetric whenever both sides resolve or both
sides fail with the configuration error; symmetry can fail only when
exactly one side resolves. -/
theorem adapter_eq_amended (a b : SchemaAdapter) :
    (∀ pa pb, a.prepareSchemaResult = .ok pa → b.prepareSchemaResult = .ok pb →
      (SchemaAdapter.adapterEq a b =
        .ok (decide (a.attname = b.attname ∧ a.exportKwargs = b.exportKwargs ∧ pa = pb)) ∧
       SchemaAdapter.adapterEq a b = SchemaAdapter.adapterEq b a)) ∧
    (∀ ma mb, a.prepareSchemaResult = .error (.improperlyConfigured ma) →
      b.prepareSchemaResult = .error (.improperlyConfigured mb) →
      ((a.isBound = true ∧ b.isBound = true → SchemaAdapter.adapterEq a b = .ok false) ∧
       (¬(a.isBound = true ∧ b.isBound = true) →
         SchemaAdapter.adapterEq a b = .ok (decide (a.attname = b.attname ∧
           a.exportKwargs = b.exportKwargs ∧ a.schema = b.schema ∧
           a.allowNull = b.allowNull))) ∧
       SchemaAdapter.adapterEq a b = SchemaAdapter.adapterEq b a)) := by
  constructor
  · intro pa pb hpa hpb
    unfold SchemaAdapter.adapterEq
    rw [hpa, hpb]
    dsimp only
    constructor
    · congr 1
      rw [decide_eq_decide]
      simp
    · congr 1
      rw [decide_eq_decide]
      simp
      tauto
  · intro ma mb hma hmb
    unfold SchemaAdapter.adapterEq
    rw [hma, hmb]
    dsimp only
    refine ⟨?_, ?_, ?_⟩
    · intro h
      rw [if_pos h]
    · intro h
      rw [if_neg h]
      congr 1
      rw [decide_eq_decide]
      simp
    · by_cases ha : a.isBound = true <;> by_cases hb : b.isBound = true
      · rw [if_pos ⟨ha, hb⟩, if_pos ⟨hb, ha⟩]
      · rw [if_neg (fun hc => hb hc.2), if_neg (fun hc => hb hc.1)]
        congr 1
        rw [decide_eq_decide]
        simp
        tauto
      · rw [if_neg (fun hc => ha hc.1), if_neg (fun hc => ha hc.2)]
        congr 1
        rw [decide_eq_decide]
        simp
        tauto
      · rw [if_neg (fun hc => ha hc.1), if_neg (fun hc => ha hc.2)]
        congr 1
        rw [decide_eq_decide]
        simp
        tauto

/-- An unbound adapter with an explicit int schema: resolution succeeds. -/
def eqResolvingAdapter : SchemaAdapter :=
  { schema := .atom "int", parentType := none, attname := some "g",
    allowNull := none, exportKwargs := {} }

theorem adapter_eq_amended_witness :
    eqResolvingAdapter.prepareSchemaResult = .ok (.atom "int") ∧
    SchemaAdapter.adapterEq eqResolvingAdapter eqResolvingAdapter = .ok true := by
  have hp : eqResolvingAdapter.prepareSchemaResult = .ok (.atom "int") := by
    simp [eqResolvingAdapter, SchemaAdapter.prepareSchemaResult,
      SchemaAdapter.resolutionResult, SchemaAdapter.resolveFR, SchemaAdapter.isBound,
      GenericContainer.wrap]
  have h := ((adapter_eq_amended eqResolvingAdapter eqResolvingAdapter).1
    (.atom "int") (.atom "int") hp hp).1
  refine ⟨hp, ?_⟩
  rw [h]
  decide

/-- Migration source expressions produced by the registered serializers:
module-level name references, string/int/None literals, the positional
constructor call GenericContainer(origin_repr, (arg_reprs)), keyword
constructor calls ClsName(k=v, ...) (dataclass reconstruction and
msgspec.Meta), dict and list literals, and the repr text of a natively
re-evaluable value (union spellings, forward references), which
re-evaluates to an equal value once its module is imported. -/
inductive MExpr : Type where
  | ref (name : String)
  | strLit (s : String)
  | intLit (n : Int)
  | noneLit
  | callGC (origin : MExpr) (args : List MExpr)
  | callKw (cls : String) (kwargs : List (String × MExpr))
  | dictLit (entries : List (String × MExpr))
  | listLit (elems : List MExpr)
  | reprLit (v : PyVal)

mutual

/-- Evaluation of migration source text in a namespace holding the
required imports: names evaluate to the classes and special forms they
denote, the GenericContainer call constructs a container, a keyword call
constructs a msgspec.Meta or a dataclass instance, and literals evaluate
to themselves. -/
def evalM : MExpr → PyVal
  | .ref name => .atom name
  | .strLit s => .pyStr s
  | .intLit n => .pyInt n
  | .noneLit => .pyNone
  | .callGC origin args => .container (evalM origin) (evalMList args)
  | .callKw cls kwargs =>
    if cls = "msgspec.Meta" then .meta (evalMFields kwargs)
    else .dcInst cls (evalMFields kwargs)
  | .dictLit entries => .pyDict (evalMFields entries)
  | .listLit elems => .pyList (evalMLList elems)
  | .reprLit v => v

/-- Evaluation of a list of expressions. -/
def evalMList : List MExpr → List PyVal
  | [] => []
  | x :: xs => evalM x :: evalMList xs

/-- Evaluation of a list of expressions (list literals). -/
def evalMLList : List MExpr → List PyVal
  | [] => []
  | x :: xs => evalM x :: evalMLList xs

/-- Evaluation of keyword pairs. -/
def evalMFields : List (String × MExpr) → List (String × PyVal)
  | [] => []
  | (k, e) :: rest => (k, evalM e) :: evalMFields rest

end

/-- The module prefix of a dotted name. -/
def moduleOf (n : String) : String :=
  String.intercalate "." (n.splitOn ".").dropLast

/-- The import statement a qualified class or special-form reference
needs: builtins need none, dotted names import their module. -/
def importOfName (n : String) : List String :=
  if 2 ≤ (n.splitOn ".").length then ["import " ++ moduleOf n] else []

lemma alookup_pdepth_le {n : String} {fields : List (String × PyVal)} {v : PyVal}
    (h : alookup n fields = some v) : pdepth v ≤ pdepthFields fields := by
  induction fields with
  | nil => simp [alookup] at h
  | cons p rest ih =>
    obtain ⟨k, w⟩ := p
    simp only [alookup] at h
    by_cases hk : k = n
    · rw [if_pos hk] at h
      injection h with h
      subst h
      simp [pdepthFields]
    · rw [if_neg hk] at h
      have := ih h
      simp only [pdepthFields]
      omega

lemma pdepthFields_metaKwargs_le (fields : List (String × PyVal)) :
    pdepthFields (metaKwargs fields) ≤ pdepthFields fields := by
  unfold metaKwargs
  generalize canonicalMetaFields = names
  induction names with
  | nil => simp [pdepthFields]
  | cons n rest ih =>
    simp only [List.filterMap_cons]
    cases hl : alookup n fields with
    | none => simpa [hl] using ih
    | some v =>
      by_cases hv : v = PyVal.pyNone
      · simp only [hl, hv]
        simpa using ih
      · simp only [hl, if_neg hv]
        have h1 := alookup_pdepth_le hl
        simp only [pdepthFields]
        omega

mutual

/-- The migration serializer registry (serializer_factory dispatch), for
the values of this model. A GenericContainer serializes through
BaseContainerSerializer as a positional constructor call on its
serialized origin and args tuple; a DataclassContainer through
DataclassContainerSerializer as a keyword constructor call on its class;
a msgspec.Meta through MsgspecMetaSerializer as a keyword msgspec.Meta
call on its non-None canonical constraint fields; classes and special
forms serialize to their qualified name plus its module import; strings,
ints, None, dicts and lists serialize as literals; union values of both
spellings serialize through UnionTypeSerializer as their repr plus the
typing import, recursing into the arguments only to collect imports; a
raw non-union generic or annotated alias goes through TypingSerializer,
which wraps it and delegates to the container serializer (inlined here);
a ForwardRef serializes through TypingSerializer's repr path. Imports are
modelled as lists and their set union as concatenation. A dataclass
instance has no registered serializer: serializer_factory raises
(modelled as none). -/
def serializeVal : PyVal → Option (MExpr × List String)
  | .container origin args =>
    match serializeVal origin, serializeValList args with
    | some (oe, oi), some (aes, ai) =>
      some (.callGC oe aes, "import django_msgspec_field.compat.django" :: (oi ++ ai))
    | _, _ => none
  | .dcContainer cls kwargs =>
    match serializeValFields kwargs with
    | some (kes, ki) => some (.callKw cls kes, importOfName cls ++ ki)
    | none => none
  | .meta fields =>
    match serializeValFields (metaKwargs fields) with
    | some (kes, ki) => some (.callKw "msgspec.Meta" kes, "import msgspec" :: ki)
    | none => none
  | .atom n => some (.ref n, importOfName n)
  | .pyStr s => some (.strLit s, [])
  | .pyInt k => some (.intLit k, [])
  | .pyNone => some (.noneLit, [])
  | .pyDict entries =>
    match serializeValFields entries with
    | some (kes, ki) => some (.dictLit kes, ki)
    | none => none
  | .pyList elems =>
    match serializeValList elems with
    | some (es, i) => some (.listLit es, i)
    | none => none
  | .bitUnion args =>
    match serializeValList args with
    | some (_, ai) => some (.reprLit (.bitUnion args), "import typing" :: ai)
    | none => none
  | .generic (.atom "typing.Union") args =>
    match serializeValList args with
    | some (_, ai) =>
      some (.reprLit (.generic (.atom "typing.Union") args), "import typing" :: ai)
    | none => none
  | .generic origin args =>
    match serializeVal origin, serializeValList (GenericContainer.wrapList args) with
    | some (oe, oi), some (aes, ai) =>
      some (.callGC oe aes, "import django_msgspec_field.compat.django" :: (oi ++ ai))
    | _, _ => none
  | .annotated base metas =>
    match serializeVal (GenericContainer.wrap base),
        serializeValList (GenericContainer.wrapList metas) with
    | some (be, bi), some (mes, mi) =>
      some (.callGC (.ref "typing.Annotated") (be :: mes),
        "import django_msgspec_field.compat.django" :: "import typing" :: (bi ++ mi))
    | _, _ => none
  | .forwardRef name => some (.reprLit (.forwardRef name), ["import typing"])
  | .dcInst _ _ => none
termination_by v => (pdepth v, 0)
decreasing_by
  · apply Prod.Lex.left
    simp only [pdepth]
    omega
  · apply Prod.Lex.left
    simp only [pdepth]
    omega
  · apply Prod.Lex.left
    simp only [pdepth]
    omega
  · apply Prod.Lex.left
    have := pdepthFields_metaKwargs_le fields
    simp only [pdepth]
    omega
  · apply Prod.Lex.left
    simp only [pdepth]
    omega
  · apply Prod.Lex.left
    simp only [pdepth]
    omega
  · apply Prod.Lex.left
    simp only [pdepth]
    omega
  · apply Prod.Lex.left
    simp only [pdepth]
    omega
  · apply Prod.Lex.left
    simp only [pdepth]
    omega
  · apply Prod.Lex.left
    have : pdepthList (GenericContainer.wrapList args) = pdepthList args := by
      apply pdepthList_wrapList
      intro a _
      exact pdepth_wrap a
    simp only [pdepth]
    omega
  · apply Prod.Lex.left
    have := pdepth_wrap base
    simp only [pdepth]
    omega
  · apply Prod.Lex.left
    have : pdepthList (GenericContainer.wrapList metas) = pdepthList metas := by
      apply pdepthList_wrapList
      intro a _
      exact pdepth_wrap a
    simp only [pdepth]
    omega

/-- Serialization of an argument tuple, forming the tuple literal and the
union of the element imports. -/
def serializeValList : List PyVal → Option (List MExpr × List String)
  | [] => some ([], [])
  | x :: xs =>
    match serializeVal x, serializeValList xs with
    | some (e, i), some (es, is2) => some (e :: es, i ++ is2)
    | _, _ => none
termination_by l => (pdepthList l, l.length + 1)
decreasing_by
  · rcases Nat.lt_or_ge (pdepth x) (pdepthList (x :: xs)) with hlt | hge
    · exact Prod.Lex.left _ _ hlt
    · have heq : pdepth x = pdepthList (x :: xs) := by
        simp only [pdepthList] at hge ⊢
        omega
      rw [heq]
      exact Prod.Lex.right _ (by omega)
  · rcases Nat.lt_or_ge (pdepthList xs) (pdepthList (x :: xs)) with hlt | hge
    · exact Prod.Lex.left _ _ hlt
    · have heq : pdepthList xs = pdepthList (x :: xs) := by
        simp only [pdepthList] at hge ⊢
        omega
      rw [heq]
      exact Prod.Lex.right _ (by simp only [List.length_cons]; omega)

/-- Serialization of keyword pairs. -/
def serializeValFields : List (String × PyVal) → Option (List (String × MExpr) × List String)
  | [] => some ([], [])
  | (k, v) :: rest =>
    match serializeVal v, serializeValFields rest with
    | some (e, i), some (es, is2) => some ((k, e) :: es, i ++ is2)
    | _, _ => none
termination_by l => (pdepthFields l, l.length + 1)
decreasing_by
  · rcases Nat.lt_or_ge (pdepth v) (pdepthFields ((k, v) :: rest)) with hlt | hge
    · exact Prod.Lex.left _ _ hlt
    · have heq : pdepth v = pdepthFields ((k, v) :: rest) := by
        simp only [pdepthFields] at hge ⊢
        omega
      rw [heq]
      exact Prod.Lex.right _ (by omega)
  · rcases Nat.lt_or_ge (pdepthFields rest) (pdepthFields ((k, v) :: rest)) with hlt | hge
    · exact Prod.Lex.left _ _ hlt
    · have heq : pdepthFields rest = pdepthFields ((k, v) :: rest) := by
        simp only [pdepthFields] at hge ⊢
        omega
      rw [heq]
      exact Prod.Lex.right _ (by simp only [List.length_cons]; omega)

end

mutual

/-- The image of the supported universe under GenericContainer.wrap:
containers over wrapped arguments, classes and special forms, literal
values, forward references and well-formed Meta instances. -/
def wrappedWf : PyVal → Bool
  | .atom _ => true
  | .pyStr _ => true
  | .pyInt _ => true
  | .pyNone => true
  | .forwardRef _ => true
  | .meta fields => metaWf fields
  | .container origin args => wrappedWf origin && wrappedWfList args
  | _ => false

/-- Pointwise wrappedWf. -/
def wrappedWfList : List PyVal → Bool
  | [] => true
  | x :: xs => wrappedWf x && wrappedWfList xs

end

lemma wrappedWfList_iff {l : List PyVal} :
    wrappedWfList l = true ↔ ∀ a ∈ l, wrappedWf a = true := by
  induction l with
  | nil => simp [wrappedWfList]
  | cons x xs ih => simp [wrappedWfList, Bool.and_eq_true, ih, List.forall_mem_cons]

lemma lit_supported {a : PyVal} (h : isLitValue a = true) : supportedType a = true := by
  cases a <;> simp_all [isLitValue, supportedType]

lemma lit_wrappedWf {a : PyVal} (h : isLitValue a = true) : wrappedWf a = true := by
  cases a <;> simp_all [isLitValue, wrappedWf]

lemma wrap_wrappedWf_sized : ∀ (n : Nat) (T : PyVal), sizeOf T ≤ n →
    supportedType T = true → wrappedWf (GenericContainer.wrap T) = true := by
  intro n
  induction n with
  | zero =>
    intro T hsize _
    exact absurd hsize (by cases T <;> simp_arith)
  | succ n ih =>
    intro T hsize hsupp
    cases T with
    | atom name => simp [GenericContainer.wrap, wrappedWf]
    | pyNone => simp [GenericContainer.wrap, wrappedWf]
    | pyStr s => simp [GenericContainer.wrap, wrappedWf]
    | pyInt k => simp [GenericContainer.wrap, wrappedWf]
    | forwardRef name => simp [GenericContainer.wrap, wrappedWf]
    | meta fields =>
      simp only [supportedType] at hsupp
      simp [GenericContainer.wrap, wrappedWf, hsupp]
    | pyList elems => simp [supportedType] at hsupp
    | pyDict entries => simp [supportedType] at hsupp
    | dcInst cls fields => simp [supportedType] at hsupp
    | container origin args => simp [supportedType] at hsupp
    | dcContainer cls kwargs => simp [supportedType] at hsupp
    | bitUnion args =>
      have hargsize : ∀ a ∈ args, sizeOf a ≤ n := by
        intro a haa
        have h1 := List.sizeOf_lt_of_mem haa
        have h2 : sizeOf args < sizeOf (PyVal.bitUnion args) := by simp_arith
        omega
      simp only [supportedType, Bool.and_eq_true] at hsupp
      obtain ⟨⟨⟨_, hsl⟩, _⟩, _⟩ := hsupp
      simp only [GenericContainer.wrap, wrappedWf, Bool.and_eq_true]
      refine ⟨trivial, ?_⟩
      rw [wrappedWfList_iff, wrapList_eq_map]
      intro a haa
      obtain ⟨b, hb, rfl⟩ := List.mem_map.mp haa
      exact ih b (hargsize b hb) (supportedList_iff.mp hsl b hb)
    | annotated base metas =>
      have hbsize : sizeOf base ≤ n := by
        have : sizeOf base < sizeOf (PyVal.annotated base metas) := by simp_arith
        omega
      have hmsize : ∀ a ∈ metas, sizeOf a ≤ n := by
        intro a haa
        have h1 := List.sizeOf_lt_of_mem haa
        have h2 : sizeOf metas < sizeOf (PyVal.annotated base metas) := by simp_arith
        omega
      simp only [supportedType, Bool.and_eq_true] at hsupp
      obtain ⟨⟨⟨_, hsb⟩, _⟩, hsm⟩ := hsupp
      simp only [GenericContainer.wrap, wrappedWf, wrappedWfList, Bool.and_eq_true]
      refine ⟨trivial, ih base hbsize hsb, ?_⟩
      rw [wrappedWfList_iff, wrapList_eq_map]
      intro a haa
      obtain ⟨b, hb, rfl⟩ := List.mem_map.mp haa
      exact ih b (hmsize b hb) (supportedList_iff.mp hsm b hb)
    | generic origin args =>
      have hargsize : ∀ a ∈ args, sizeOf a ≤ n := by
        intro a haa
        have h1 := List.sizeOf_lt_of_mem haa
        have h2 : sizeOf args < sizeOf (PyVal.generic origin args) := by simp_arith
        omega
      cases origin with
      | atom oname =>
        simp only [GenericContainer.wrap, wrappedWf, Bool.and_eq_true]
        refine ⟨trivial, ?_⟩
        rw [wrappedWfList_iff, wrapList_eq_map]
        intro a haa
        obtain ⟨b, hb, rfl⟩ := List.mem_map.mp haa
        by_cases hU : oname = "typing.Union"
        · subst hU
          unfold supportedType at hsupp
          rw [if_pos rfl] at hsupp
          simp only [Bool.and_eq_true] at hsupp
          exact ih b (hargsize b hb) (supportedList_iff.mp hsupp.1.1.2 b hb)
        · by_cases hL : oname = "typing.Literal"
          · subst hL
            unfold supportedType at hsupp
            rw [if_neg (show ("typing.Literal" : String) ≠ "typing.Union" by decide),
              if_pos rfl] at hsupp
            simp only [Bool.and_eq_true, List.all_eq_true] at hsupp
            exact ih b (hargsize b hb) (lit_supported (hsupp.1.2 b hb))
          · unfold supportedType at hsupp
            rw [if_neg hU, if_neg hL] at hsupp
            simp only [Bool.and_eq_true] at hsupp
            exact ih b (hargsize b hb) (supportedList_iff.mp hsupp.1.2 b hb)
      | pyNone => simp [supportedType] at hsupp
      | pyStr s => simp [supportedType] at hsupp
      | pyInt k => simp [supportedType] at hsupp
      | pyList elems => simp [supportedType] at hsupp
      | pyDict entries => simp [supportedType] at hsupp
      | generic o2 a2 => simp [supportedType] at hsupp
      | bitUnion a2 => simp [supportedType] at hsupp
      | annotated b2 m2 => simp [supportedType] at hsupp
      | meta f2 => simp [supportedType] at hsupp
      | forwardRef n2 => simp [supportedType] at hsupp
      | dcInst c2 f2 => simp [supportedType] at hsupp
      | container o2 a2 => simp [supportedType] at hsupp
      | dcContainer c2 k2 => simp [supportedType] at hsupp

lemma serializeList_roundtrip {l : List PyVal}
    (hIH : ∀ a ∈ l, ∃ e i, serializeVal a = some (e, i) ∧ evalM e = a) :
    ∃ es i, serializeValList l = some (es, i) ∧ evalMList es = l := by
  induction l with
  | nil => exact ⟨[], [], by simp [serializeValList], rfl⟩
  | cons x xs ih =>
    obtain ⟨e, i, hse, hev⟩ := hIH x (by simp)
    obtain ⟨es, i2, hses, hevs⟩ := ih fun a ha => hIH a (by simp [ha])
    refine ⟨e :: es, i ++ i2, ?_, ?_⟩
    · simp only [serializeValList]
      rw [hse, hses]
    · simp only [evalMList]
      rw [hev, hevs]

lemma serializeFields_roundtrip {l : List (String × PyVal)}
    (hIH : ∀ p ∈ l, ∃ e i, serializeVal p.2 = some (e, i) ∧ evalM e = p.2) :
    ∃ es i, serializeValFields l = some (es, i) ∧ evalMFields es = l := by
  induction l with
  | nil => exact ⟨[], [], by simp [serializeValFields], rfl⟩
  | cons p rest ih =>
    obtain ⟨k, v⟩ := p
    obtain ⟨e, i, hse, hev⟩ := hIH ⟨k, v⟩ (by simp)
    obtain ⟨es, i2, hses, hevs⟩ := ih fun q hq => hIH q (by simp [hq])
    refine ⟨(k, e) :: es, i ++ i2, ?_, ?_⟩
    · simp only [serializeValFields]
      rw [hse, hses]
    · simp only [evalMFields]
      rw [hev, hevs]

lemma metaValOk_roundtrip {v : PyVal} (h : metaValOk v = true) :
    ∃ e i, serializeVal v = some (e, i) ∧ evalM e = v := by
  cases v with
  | atom n => exact ⟨.ref n, importOfName n, by simp [serializeVal], rfl⟩
  | pyStr s => exact ⟨.strLit s, [], by simp [serializeVal], rfl⟩
  | pyInt k => exact ⟨.intLit k, [], by simp [serializeVal], rfl⟩
  | _ => simp_all [metaValOk]

lemma serialize_eval_sized : ∀ (n : Nat) (w : PyVal), sizeOf w ≤ n →
    wrappedWf w = true → ∃ e imps, serializeVal w = some (e, imps) ∧ evalM e = w := by
  intro n
  induction n with
  | zero =>
    intro w hsize _
    exact absurd hsize (by cases w <;> simp_arith)
  | succ n ih =>
    intro w hsize hwf
    cases w with
    | atom nm => exact ⟨.ref nm, importOfName nm, by simp [serializeVal], rfl⟩
    | pyStr s => exact ⟨.strLit s, [], by simp [serializeVal], rfl⟩
    | pyInt k => exact ⟨.intLit k, [], by simp [serializeVal], rfl⟩
    | pyNone => exact ⟨.noneLit, [], by simp [serializeVal], rfl⟩
    | forwardRef nm =>
      exact ⟨.reprLit (.forwardRef nm), ["import typing"], by simp [serializeVal], rfl⟩
    | meta fields =>
      simp only [wrappedWf, metaWf, Bool.and_eq_true, decide_eq_true_eq,
        List.all_eq_true] at hwf
      obtain ⟨hkw, hvals⟩ := hwf
      have hsz : ∀ p ∈ fields, sizeOf p.2 ≤ n := by
        intro p hp
        have h1 := List.sizeOf_lt_of_mem hp
        have h2 : sizeOf fields < sizeOf (PyVal.meta fields) := by simp_arith
        obtain ⟨a, b⟩ := p
        simp only [Prod.mk.sizeOf_spec] at h1 ⊢
        omega
      obtain ⟨es, i, hs, hev⟩ := serializeFields_roundtrip
        (fun p hp => metaValOk_roundtrip (hvals p hp))
      refine ⟨.callKw "msgspec.Meta" es, "import msgspec" :: i, ?_, ?_⟩
      · simp only [serializeVal]
        rw [hkw, hs]
      · simp only [evalM, if_pos rfl]
        rw [hev]
        simp
    | container origin args =>
      simp only [wrappedWf, Bool.and_eq_true] at hwf
      obtain ⟨ho, hl⟩ := hwf
      have hosize : sizeOf origin ≤ n := by
        have : sizeOf origin < sizeOf (PyVal.container origin args) := by simp_arith
        omega
      have hasize : ∀ a ∈ args, sizeOf a ≤ n := by
        intro a haa
        have h1 := List.sizeOf_lt_of_mem haa
        have h2 : sizeOf args < sizeOf (PyVal.container origin args) := by simp_arith
        omega
      obtain ⟨oe, oi, hos, hoev⟩ := ih origin hosize ho
      obtain ⟨aes, ai, has, haev⟩ := serializeList_roundtrip
        (fun a haa => ih a (hasize a haa) (wrappedWfList_iff.mp hl a haa))
      refine ⟨.callGC oe aes,
        "import django_msgspec_field.compat.django" :: (oi ++ ai), ?_, ?_⟩
      · simp only [serializeVal]
        rw [hos, has]
      · simp only [evalM]
        rw [hoev, haev]
    | pyList elems => simp [wrappedWf] at hwf
    | pyDict entries => simp [wrappedWf] at hwf
    | generic o a => simp [wrappedWf] at hwf
    | bitUnion a => simp [wrappedWf] at hwf
    | annotated b m => simp [wrappedWf] at hwf
    | dcInst c f => simp [wrappedWf] at hwf
    | dcContainer c k => simp [wrappedWf] at hwf

/-- The GenericContainer.__eq__ comparison of an evaluated migration value
against a raw type: a container compares equal to other exactly when
wrapping other yields the same container (the slots compare attribute-wise
with elementwise tuple equality); a non-container value compares
structurally. -/
def containerRawEq (v t : PyVal) : Bool :=
  match v with
  | .container o a => decide (GenericContainer.wrap t = .container o a)
  | v => decide (v = t)

lemma wrap_fix_of_not_container {T : PyVal}
    (h : ∀ o a, GenericContainer.wrap T ≠ .container o a) :
    GenericContainer.wrap T = T := by
  cases T
  case generic origin args =>
    exact absurd (by simp [GenericContainer.wrap]) (h origin (GenericContainer.wrapList args))
  case bitUnion args =>
    exact absurd (by simp [GenericContainer.wrap])
      (h (.atom "types.UnionType") (GenericContainer.wrapList args))
  case annotated base metas =>
    exact absurd (by simp [GenericContainer.wrap])
      (h (.atom "typing.Annotated")
        (GenericContainer.wrap base :: GenericContainer.wrapList metas))
  all_goals simp [GenericContainer.wrap]

lemma containerRawEq_wrap (T : PyVal) :
    containerRawEq (GenericContainer.wrap T) T = true := by
  unfold containerRawEq
  split
  · next o a hm => rw [← hm]; simp
  · next hm =>
    have hfix : GenericContainer.wrap T = T := by
      apply wrap_fix_of_not_container
      intro o a hc
      exact hm o a hc
    rw [hfix]
    simp

/-- C2: serializing the wrapped form of a supported raw type to migration
source and re-evaluating that source yields the container wrap(raw_type)
itself, which in turn compares equal to raw_type through the container's
equality; serialization emits the positional GenericContainer constructor
call for a Generic Container, keyword pairs for a Data-Instance
Container, and collects the transitively required imports. -/
theorem serialize_eval_roundtrip (T : PyVal) (h : supportedType T = true) :
    ∃ e imps, serializeVal (GenericContainer.wrap T) = some (e, imps) ∧
      evalM e = GenericContainer.wrap T ∧
      containerRawEq (evalM e) T = true := by
  have hwf : wrappedWf (GenericContainer.wrap T) = true :=
    wrap_wrappedWf_sized (sizeOf T) T le_rfl h
  obtain ⟨e, imps, hs, hev⟩ :=
    serialize_eval_sized (sizeOf (GenericContainer.wrap T)) _ le_rfl hwf
  refine ⟨e, imps, hs, hev, ?_⟩
  rw [hev]
  exact containerRawEq_wrap T

theorem serialize_eval_roundtrip_witness :
    supportedType sampleSupportedShape = true ∧
    (∃ e imps, serializeVal (GenericContainer.wrap sampleSupportedShape) = some (e, imps) ∧
      evalM e = GenericContainer.wrap sampleSupportedShape ∧
      containerRawEq (evalM e) sampleSupportedShape = true) :=
  ⟨by decide, serialize_eval_roundtrip sampleSupportedShape (by decide)⟩
